import Mathlib

/-!
Verification of the concurrent seat-reservation core of the
starsoft-backend-challenge repository, against its natural-language
specification.  The TypeScript source is shallowly embedded: pure
computations become Lean functions, the database and the coordination
store become explicit state, and the interleaving-sensitive operations
(payment confirmation, reservation creation, the cleanup job) become
small-step transition systems whose atomic steps are exactly the atomic
store operations of the source (each Prisma `updateMany`/`$transaction`
commit, each Redis command).
-/

namespace Cinema

/-- Seat status enum from the Prisma schema
(`status enum { AVAILABLE, LOCKED, SOLD }`). -/
inductive SeatStatus
  | AVAILABLE
  | LOCKED
  | SOLD
deriving DecidableEq, Repr

/-- Reservation status enum from the Prisma schema
(`status enum { PENDING, CONFIRMED, CANCELLED }`). -/
inductive ReservationStatus
  | PENDING
  | CONFIRMED
  | CANCELLED
deriving DecidableEq, Repr

/-- A row of the `seats` table (the fields the core reads). -/
structure Seat where
  id : String
  sessionId : String
  row : String
  number : Nat
  status : SeatStatus
deriving DecidableEq, Repr

/-- A row of the `reservations` table.  `expiresAt` is epoch milliseconds. -/
structure Reservation where
  id : String
  userId : String
  seatId : String
  status : ReservationStatus
  expiresAt : Int
deriving DecidableEq, Repr

/-- The HTTP error kinds thrown by the service layer
(`NotFoundException`, `ConflictException`, `BadRequestException`),
plus `Internal` for unexpected store failures propagated unchanged. -/
inductive AppError
  | NotFound (msg : String)
  | Conflict (msg : String)
  | BadRequest (msg : String)
  | Internal (msg : String)
deriving DecidableEq, Repr

/-- Key convention `lock:seat:{seatId}` (written without braces here). -/
def lockKey (seatId : String) : String := "lock:seat:" ++ seatId

/-- Key convention `idem:reservation:{userId}:{key}`. -/
def idemKeyOf (userId key : String) : String :=
  "idem:reservation:" ++ userId ++ ":" ++ key

end Cinema

/-! ## The exponential-retry error handler (`rabbitmq.retry.ts`) -/

namespace Cinema.Retry

/-- `ExponentialRetryOptions` with the `defaultOptions` of the source. -/
structure ExponentialRetryOptions where
  retryExchange : String := "cinema_retry"
  dlqExchange : String := "cinema_dlq"
  maxRetries : Nat := 5
  baseDelayMs : Nat := 1000
  maxDelayMs : Nat := 30000
deriving DecidableEq, Repr

/-- The AMQP message properties that `createExponentialRetryErrorHandler`
copies from the failed message into `publishOptions`. -/
structure MsgProps where
  contentType : Option String
  contentEncoding : Option String
  correlationId : Option String
  messageId : Option String
  timestamp : Option Nat
  type : Option String
  appId : Option String
deriving DecidableEq, Repr

/-- The retry-relevant headers of a delivered message.
`xRetryCount = some n` models a `x-retry-count` header whose value
`Number(...)` parses to the finite number `n`; `none` models an absent or
non-numeric header (for which `toSafeNumber` yields the fallback 0). -/
structure InHeaders where
  xRetryCount : Option Nat
  xOriginalExchange : Option String
  xOriginalRoutingKey : Option String
deriving DecidableEq, Repr

/-- A delivered message as seen by the error handler. -/
structure DeliveredMsg where
  exchange : String
  routingKey : String
  content : String
  props : MsgProps
  headers : InHeaders
  errorMessage : String
deriving DecidableEq, Repr

/-- `toSafeNumber(value, fallback)`: the parsed number when finite,
else the fallback. -/
def toSafeNumber (value : Option Nat) (fallback : Nat) : Nat :=
  value.getD fallback

/-- The headers attached to the republished message (`nextHeaders`). -/
structure OutHeaders where
  xRetryCount : Nat
  xOriginalExchange : String
  xOriginalRoutingKey : String
  xLastError : String
deriving DecidableEq, Repr

/-- A single `channel.publish` performed by the handler. -/
structure Published where
  exchange : String
  routingKey : String
  content : String
  persistent : Bool
  props : MsgProps
  headers : OutHeaders
  expiration : Option String
deriving DecidableEq, Repr

/-- Shallow embedding of the closure returned by
`createExponentialRetryErrorHandler`: it publishes exactly one message
(to the DLQ exchange after `maxRetries`, otherwise to the retry exchange
with a per-message `expiration`) and acks the original. -/
def exponentialRetryHandle (options : ExponentialRetryOptions)
    (msg : DeliveredMsg) : Published :=
  let retryCount := toSafeNumber msg.headers.xRetryCount 0
  let nextHeaders : OutHeaders :=
    { xRetryCount := retryCount + 1
      xOriginalExchange := msg.headers.xOriginalExchange.getD msg.exchange
      xOriginalRoutingKey := msg.headers.xOriginalRoutingKey.getD msg.routingKey
      xLastError := msg.errorMessage }
  if retryCount ≥ options.maxRetries then
    { exchange := options.dlqExchange
      routingKey := msg.routingKey
      content := msg.content
      persistent := true
      props := msg.props
      headers := nextHeaders
      expiration := none }
  else
    let delayMs := min options.maxDelayMs (options.baseDelayMs * 2 ^ retryCount)
    { exchange := options.retryExchange
      routingKey := msg.routingKey
      content := msg.content
      persistent := true
      props := msg.props
      headers := nextHeaders
      expiration := some (toString delayMs) }

/-- The handler instantiated with the default options, as
`exponentialRetryErrorHandler` is in the source. -/
def defaultRetryHandle (msg : DeliveredMsg) : Published :=
  exponentialRetryHandle {} msg

end Cinema.Retry

/-! ## Deterministic lock ordering in `ReservationsService.create` -/

namespace Cinema

/-- Lexicographic comparison of character lists by code unit, the order
`[...seatIds].sort()` uses (JavaScript compares UTF-16 code units; seat
ids are ASCII UUIDs, where code units and code points agree). -/
def jsLeChars : List Char → List Char → Bool
  | [], _ => true
  | _ :: _, [] => false
  | a :: as, b :: bs =>
    if a < b then true
    else if b < a then false
    else jsLeChars as bs

/-- The string order of JavaScript's default sort. -/
def jsLe (a b : String) : Bool := jsLeChars a.data b.data

/-- `[...seatIds].sort()`: sorting is modelled extensionally by
insertion sort, which produces the same (unique) sorted permutation. -/
def sortSeatIds (seatIds : List String) : List String :=
  seatIds.insertionSort fun a b => jsLe a b = true

/-- The sequence of Redis keys for which `create` attempts
`SET key userId PX 30000 NX`, in attempt order. -/
def lockAttemptSequence (seatIds : List String) : List String :=
  (sortSeatIds seatIds).map lockKey

end Cinema

/-! ## The relational store and its status-conditioned updates

The database is the pair of the `seats` and `reservations` tables.  The
`sales` and `sessions` tables never influence the claims under study
(the `sale.upsert` inside the confirm transaction writes only `sales`),
so they are not carried in the state.  Redis is split into its two
disjoint key namespaces: seat locks (`lock:seat:` keys, value = owner
userId) and idempotency markers (`idem:reservation:` keys). -/

namespace Cinema

structure DB where
  seats : List Seat
  reservations : List Reservation
deriving DecidableEq, Repr

/-- Seat-lock half of Redis: key to stored owner value. -/
def Locks := String → Option String

/-- `SET k v PX ttl NX` on the lock namespace: succeeds iff absent. -/
def Locks.setNX (locks : Locks) (k v : String) : Locks × Bool :=
  match locks k with
  | some _ => (locks, false)
  | none => (fun x => if x = k then some v else locks x, true)

/-- `DEL k`. -/
def Locks.del (locks : Locks) (k : String) : Locks :=
  fun x => if x = k then none else locks x

/-- `DEL k1 k2 …` (variadic / array form). -/
def Locks.delMany (locks : Locks) (ks : List String) : Locks :=
  fun x => if x ∈ ks then none else locks x

/-- Prisma `reservation.findUnique({ where: { id } })`. -/
def DB.findReservation (db : DB) (rid : String) : Option Reservation :=
  db.reservations.find? (fun r => r.id = rid)

def DB.resStatus (db : DB) (rid : String) : Option ReservationStatus :=
  (db.findReservation rid).map (·.status)

/-- Row predicate of the conditional confirm
(`where: id, status: PENDING, expiresAt: { gte: now }`). -/
def confirmCond (rid : String) (now : Int) (r : Reservation) : Bool :=
  r.id = rid && r.status == .PENDING && now ≤ r.expiresAt

/-- `tx.reservation.updateMany` of `confirmPayment`: sets CONFIRMED on the
rows satisfying `confirmCond`; returns the new table and the affected count. -/
def DB.conditionalConfirm (db : DB) (rid : String) (now : Int) : DB × Nat :=
  (⟨db.seats,
    db.reservations.map fun r =>
      if confirmCond rid now r then { r with status := .CONFIRMED } else r⟩,
   db.reservations.countP (confirmCond rid now))

/-- Row predicate of the conditional seat sale
(`where: id, status: AVAILABLE`). -/
def sellCond (sid : String) (s : Seat) : Bool :=
  s.id = sid && s.status == .AVAILABLE

/-- `tx.seat.updateMany` of `confirmPayment`: AVAILABLE to SOLD. -/
def DB.conditionalSellSeat (db : DB) (sid : String) : DB × Nat :=
  (⟨db.seats.map fun s =>
      if sellCond sid s then { s with status := .SOLD } else s,
    db.reservations⟩,
   db.seats.countP (sellCond sid))

/-- `prisma.reservation.update({ where: { id }, data: { status: CANCELLED } })`
in the expiry branch of `confirmPayment`: conditioned on the id only. -/
def DB.cancelUnconditional (db : DB) (rid : String) : DB :=
  ⟨db.seats,
   db.reservations.map fun r =>
     if r.id = rid then { r with status := .CANCELLED } else r⟩

/-- Row predicate of the per-item cleanup cancel
(`where: id, status: PENDING, expiresAt: { lt: now }`). -/
def cancelItemCond (rid : String) (now : Int) (r : Reservation) : Bool :=
  r.id = rid && r.status == .PENDING && r.expiresAt < now

/-- The cleanup job's per-reservation `updateMany` (first revision). -/
def DB.cancelExpiredItem (db : DB) (rid : String) (now : Int) : DB × Nat :=
  (⟨db.seats,
    db.reservations.map fun r =>
      if cancelItemCond rid now r then { r with status := .CANCELLED } else r⟩,
   db.reservations.countP (cancelItemCond rid now))

/-- Row predicate of the batch cleanup cancel
(`where: id: { in: ids }, status: PENDING` — no expiry re-check). -/
def cancelBatchCond (ids : List String) (r : Reservation) : Bool :=
  r.id ∈ ids && r.status == .PENDING

/-- The cleanup job's batch `updateMany` (batch revision). -/
def DB.cancelBatch (db : DB) (ids : List String) : DB × Nat :=
  (⟨db.seats,
    db.reservations.map fun r =>
      if cancelBatchCond ids r then { r with status := .CANCELLED } else r⟩,
   db.reservations.countP (cancelBatchCond ids))

/-- Outcome classification of the confirm transaction. -/
inductive TxResult
  | committed          -- both updates hit: confirmedNow = true
  | alreadyConfirmed   -- confirm count 0, reload saw CONFIRMED: confirmedNow = false
  | wasCancelled       -- confirm count 0, reload saw CANCELLED: BadRequestException
  | raceConflict       -- confirm count 0, otherwise: ConflictException
  | seatConflict       -- seat count 0: ConflictException, transaction rolled back
deriving DecidableEq, Repr

/-- The `$transaction` of `confirmPayment`, atomically: the conditional
confirm, then the conditional seat sale which must affect a row or the
raised ConflictException rolls the whole transaction back.  The
`sale.upsert` writes only the (untracked) `sales` table. -/
def DB.confirmTx (db : DB) (rid sid : String) (now : Int) : DB × TxResult :=
  let (db1, c1) := db.conditionalConfirm rid now
  if c1 = 0 then
    match db.findReservation rid with
    | some latest =>
      if latest.status = .CONFIRMED then (db, .alreadyConfirmed)
      else if latest.status = .CANCELLED then (db, .wasCancelled)
      else (db, .raceConflict)
    | none => (db, .raceConflict)
  else
    let (db2, c2) := db1.conditionalSellSeat sid
    if c2 = 0 then (db, .seatConflict)
    else (db2, .committed)

end Cinema

/-! ## `confirmPayment`, whole-call sequential semantics

Both revisions are embedded: `ReservationsService.confirmPayment`
(which on an already-CONFIRMED reservation returns an ok body) and
`ConfirmPaymentAction.execute` (whose `ensureReservationIsPayable`
throws ConflictException instead).  The call runs without interference;
the interleaved semantics lives in `Cinema.Sys` below. -/

namespace Cinema.Confirm

/-- A published `payment.confirmed` message (routing data; the `amount`
string and timestamp carry no information the claims mention). -/
structure PaymentEvent where
  reservationId : String
  userId : String
  seatId : String
deriving DecidableEq, Repr

structure ConfirmResult where
  result : Except AppError String
  db : DB
  locks : Locks
  events : List PaymentEvent

/-- Shared tail of both variants: expiry branch, transaction, publish,
lock release. -/
def confirmTail (db : DB) (locks : Locks) (rid : String) (now : Int)
    (r : Reservation) : ConfirmResult :=
  if r.expiresAt < now then
    { result := .error (.BadRequest "Tempo de reserva expirado.")
      db := db.cancelUnconditional rid, locks := locks, events := [] }
  else
    let (db', tr) := db.confirmTx rid r.seatId now
    match tr with
    | .committed =>
      { result := .ok "Pagamento confirmado! Bom filme."
        db := db', locks := locks.del (lockKey r.seatId)
        events := [⟨rid, r.userId, r.seatId⟩] }
    | .alreadyConfirmed =>
      { result := .ok "Pagamento confirmado! Bom filme."
        db := db', locks := locks.del (lockKey r.seatId), events := [] }
    | .wasCancelled =>
      { result := .error (.BadRequest "Esta reserva já foi cancelada ou expirou.")
        db := db', locks := locks, events := [] }
    | .raceConflict =>
      { result := .error (.Conflict "Não foi possível confirmar o pagamento (reserva já processada).")
        db := db', locks := locks, events := [] }
    | .seatConflict =>
      { result := .error (.Conflict "Assento já foi vendido.")
        db := db', locks := locks, events := [] }

/-- `ReservationsService.confirmPayment`. -/
def confirmPaymentService (db : DB) (locks : Locks) (rid : String)
    (now : Int) : ConfirmResult :=
  match db.findReservation rid with
  | none =>
    { result := .error (.NotFound "Reserva não encontrada.")
      db := db, locks := locks, events := [] }
  | some r =>
    if r.status = .CONFIRMED then
      { result := .ok "Pagamento já foi processado anteriormente."
        db := db, locks := locks, events := [] }
    else if r.status = .CANCELLED then
      { result := .error (.BadRequest "Esta reserva já foi cancelada ou expirou.")
        db := db, locks := locks, events := [] }
    else confirmTail db locks rid now r

/-- `ConfirmPaymentAction.execute`: identical except that
`ensureReservationIsPayable` raises ConflictException on CONFIRMED. -/
def confirmPaymentAction (db : DB) (locks : Locks) (rid : String)
    (now : Int) : ConfirmResult :=
  match db.findReservation rid with
  | none =>
    { result := .error (.NotFound "Reserva não encontrada.")
      db := db, locks := locks, events := [] }
  | some r =>
    if r.status = .CONFIRMED then
      { result := .error (.Conflict "Pagamento já confirmado para esta reserva.")
        db := db, locks := locks, events := [] }
    else if r.status = .CANCELLED then
      { result := .error (.BadRequest "Esta reserva já foi cancelada ou expirou.")
        db := db, locks := locks, events := [] }
    else confirmTail db locks rid now r

end Cinema.Confirm

/-! ## `create`, whole-call sequential semantics

Embeds `ReservationsService.create` and the refactored
`CreateReservationAction.execute`.  The two differ in exactly one
place: when the reservation-insert transaction fails, the service's
`catch` deletes only the idempotency marker, while the action's outer
`catch` also deletes every acquired seat lock.  The transaction outcome
is an explicit parameter (`txFail`), as is the list of generated row
ids; a call here runs without interference (the concurrent semantics
is the business of the later transition systems). -/

namespace Cinema.Create

structure CreateReservationDto where
  seatIds : List String
  userId : String
deriving DecidableEq, Repr

/-- The success body of `create`
(`message`, `reservationIds`, `expiresAt` ISO string — represented by
the underlying millisecond value, `expiresInSeconds`). -/
structure CreateResponse where
  message : String
  reservationIds : List String
  expiresAtMs : Int
  expiresInSeconds : Nat
deriving DecidableEq, Repr

/-- The JSON value stored at an idempotency key: the processing sentinel
or a final response body. -/
inductive Body
  | processing
  | response (r : CreateResponse)
deriving DecidableEq, Repr

/-- Idempotency-marker half of Redis. -/
def Idem := String → Option Body

/-- `value.trim`, modelled on the character list: strip leading and
trailing whitespace. -/
def trimChars (l : List Char) : List Char :=
  ((l.dropWhile Char.isWhitespace).reverse.dropWhile Char.isWhitespace).reverse

/-- `normalizeIdempotencyKey`: trim, reject empty, truncate to 128
(`trimmed.slice(0, 128)`). -/
def normalizeIdempotencyKey (value : Option String) : Option String :=
  match value with
  | none => none
  | some v =>
    let trimmed := String.mk (trimChars v.data)
    if trimmed = "" then none else some (String.mk (trimmed.data.take 128))

/-- `redis.del(idemCacheKey)` when a key is in play. -/
def delIdem (idem : Idem) (ck : Option String) : Idem :=
  match ck with
  | none => idem
  | some c => fun k => if k = c then none else idem k

/-- `redis.set(idemCacheKey, body, PX, 60000)`. -/
def setIdem (idem : Idem) (ck : Option String) (b : Body) : Idem :=
  match ck with
  | none => idem
  | some c => fun k => if k = c then some b else idem k

/-- The seat-conflict message built from the non-AVAILABLE seats. -/
def seatConflictMsg (soldSeats : List Seat) : String :=
  match soldSeats with
  | [s] => "O assento " ++ toString s.number ++ " já foi reservado."
  | l => "Os assentos " ++ String.intercalate ", " (l.map fun s => toString s.number)
      ++ " já foram reservados."

/-- The iterative `SET lock:seat:sid userId PX 30000 NX` loop: returns
the lock store after the loop, the keys acquired (in order) and, on the
first refusal, the losing seat id.  On refusal the store reflects the
acquisitions made before it (the caller rolls them back). -/
def acquireLocks (userId : String) : Locks → List String → Locks × List String × Option String
  | locks, [] => (locks, [], none)
  | locks, sid :: rest =>
    let (locks', ok) := locks.setNX (lockKey sid) userId
    if ok then
      let (lf, acq, fail) := acquireLocks userId locks' rest
      (lf, lockKey sid :: acq, fail)
    else (locks, [], some sid)

structure CreateResult where
  result : Except AppError Body
  db : DB
  locks : Locks
  idem : Idem
  events : List Reservation

/-- Steps 1–7 of `create` after the idempotency gate (the `try` block).
`ck` is the derived cache key when one is in play, and
`releaseLocksOnTxFail` distinguishes the action (`true`) from the
service (`false`). -/
def mainFlow (releaseLocksOnTxFail : Bool) (dto : CreateReservationDto)
    (ck : Option String) (db : DB) (locks : Locks) (idem : Idem)
    (nowMs : Int) (rowIds : List String) (txFail : Option AppError) :
    CreateResult :=
  let sortedSeatIds := sortSeatIds dto.seatIds
  let seats := db.seats.filter fun s => decide (s.id ∈ sortedSeatIds)
  if seats.length ≠ sortedSeatIds.length then
    { result := .error (.NotFound "Um ou mais assentos não foram encontrados.")
      db := db, locks := locks, idem := delIdem idem ck, events := [] }
  else
    let soldSeats := seats.filter fun s => s.status ≠ SeatStatus.AVAILABLE
    if soldSeats ≠ [] then
      { result := .error (.Conflict (seatConflictMsg soldSeats))
        db := db, locks := locks, idem := delIdem idem ck, events := [] }
    else
      let acqRes := acquireLocks dto.userId locks sortedSeatIds
      match acqRes.2.2 with
      | some sid =>
        { result := .error (.Conflict ("O assento " ++ sid ++ " acabou de ser reservado por outro usuário."))
          db := db, locks := acqRes.1.delMany acqRes.2.1
          idem := delIdem idem ck, events := [] }
      | none =>
        match txFail with
        | some e =>
          { result := .error e, db := db
            locks := if releaseLocksOnTxFail then acqRes.1.delMany acqRes.2.1 else acqRes.1
            idem := delIdem idem ck, events := [] }
        | none =>
          let expiresAt := nowMs + 30000
          let rows := (sortedSeatIds.zip rowIds).map fun p =>
            Reservation.mk p.2 dto.userId p.1 .PENDING expiresAt
          let response : CreateResponse :=
            { message := "Reservas realizadas com sucesso!"
              reservationIds := rows.map (·.id)
              expiresAtMs := expiresAt
              expiresInSeconds := 30 }
          { result := .ok (.response response)
            db := ⟨db.seats, db.reservations ++ rows⟩
            locks := acqRes.1
            idem := setIdem idem ck (.response response)
            events := rows }

/-- The idempotency gate plus `mainFlow`.  Sequentially (no concurrent
writer), a `processing` marker stays `processing` through all 15 polls,
so that path ends in the ConflictException; a cached final body is
returned as-is; an absent marker is claimed and the flow runs. -/
def createCall (releaseLocksOnTxFail : Bool) (dto : CreateReservationDto)
    (idempotencyKey : Option String) (db : DB) (locks : Locks) (idem : Idem)
    (nowMs : Int) (rowIds : List String) (txFail : Option AppError) :
    CreateResult :=
  match (normalizeIdempotencyKey idempotencyKey).map (idemKeyOf dto.userId) with
  | none => mainFlow releaseLocksOnTxFail dto none db locks idem nowMs rowIds txFail
  | some ck =>
    match idem ck with
    | some (.response r) =>
      { result := .ok (.response r), db := db, locks := locks, idem := idem, events := [] }
    | some .processing =>
      { result := .error (.Conflict "Requisição idempotente em processamento. Tente novamente.")
        db := db, locks := locks, idem := idem, events := [] }
    | none =>
      mainFlow releaseLocksOnTxFail dto (some ck) db locks
        (setIdem idem (some ck) .processing) nowMs rowIds txFail

/-- `ReservationsService.create`. -/
def createService (dto : CreateReservationDto) (idempotencyKey : Option String)
    (db : DB) (locks : Locks) (idem : Idem) (nowMs : Int)
    (rowIds : List String) (txFail : Option AppError) : CreateResult :=
  createCall false dto idempotencyKey db locks idem nowMs rowIds txFail

/-- `CreateReservationAction.execute`. -/
def createAction (dto : CreateReservationDto) (idempotencyKey : Option String)
    (db : DB) (locks : Locks) (idem : Idem) (nowMs : Int)
    (rowIds : List String) (txFail : Option AppError) : CreateResult :=
  createCall true dto idempotencyKey db locks idem nowMs rowIds txFail

end Cinema.Create

/-! ## The cleanup job (`reservations.cleanup.service.ts`)

Both revisions of `handleCron` are embedded.  The per-item revision
re-checks `status: PENDING, expiresAt: { lt: now }` for each candidate
and publishes/deletes only when its own `updateMany` reported a row.
The batch revision cancels `id in ids AND status = PENDING` in one
statement and then — whenever the overall count was nonzero — deletes
every candidate's lock key and publishes the event pair for every
candidate of the earlier read.  The candidate list is an explicit
parameter: it is the result of the `findMany` that ran one `await`
earlier, and the database may have moved on since. -/

namespace Cinema.Cleanup

/-- A candidate row as selected by the job's `findMany`
(`select: { id, seatId, userId }`). -/
structure ExpiredRow where
  id : String
  seatId : String
  userId : String
deriving DecidableEq, Repr

/-- A message published by the job (routing key plus the payload fields
the claims mention; the per-item revision's payloads carry no userId). -/
structure CronEvent where
  routingKey : String
  reservationId : String
  seatId : String
  userId : Option String
  reason : String
deriving DecidableEq, Repr

def expiredEventItem (r : ExpiredRow) : CronEvent :=
  ⟨"reservation.expired", r.id, r.seatId, none, "TIMEOUT"⟩

def releasedEventItem (r : ExpiredRow) : CronEvent :=
  ⟨"seat.released", r.id, r.seatId, none, "RESERVATION_EXPIRED"⟩

def expiredEventBatch (r : ExpiredRow) : CronEvent :=
  ⟨"reservation.expired", r.id, r.seatId, some r.userId, "TIMEOUT"⟩

def releasedEventBatch (r : ExpiredRow) : CronEvent :=
  ⟨"seat.released", r.id, r.seatId, some r.userId, "RESERVATION_EXPIRED"⟩

/-- The job's `findMany` (status PENDING and already expired). -/
def listExpiredPending (db : DB) (now : Int) : List ExpiredRow :=
  (db.reservations.filter fun r => r.status == .PENDING && r.expiresAt < now).map
    fun r => ⟨r.id, r.seatId, r.userId⟩

/-- Whether the per-item conditional cancel of `rid` would report an
affected row on this database (the row is still PENDING and expired). -/
def willCancel (db : DB) (now : Int) (rid : String) : Bool :=
  db.reservations.countP (cancelItemCond rid now) != 0

/-- Per-item revision: for each candidate, the conditional cancel; on
`count = 0` skip (`continue`), otherwise publish `reservation.expired`,
delete the seat-lock key, publish `seat.released`. -/
def runPerItem (now : Int) : List ExpiredRow → DB → Locks → DB × Locks × List CronEvent
  | [], db, locks => (db, locks, [])
  | r :: rest, db, locks =>
    let step := db.cancelExpiredItem r.id now
    if step.2 = 0 then runPerItem now rest step.1 locks
    else
      let recur := runPerItem now rest step.1 (locks.del (lockKey r.seatId))
      (recur.1, recur.2.1, expiredEventItem r :: releasedEventItem r :: recur.2.2)

/-- Batch revision: one `updateMany` over all candidate ids (PENDING
only — no expiry re-check), then, unless the count was zero, one
multi-key `DEL` of every candidate's lock and the event pair for every
candidate. -/
def runBatch (snapshot : List ExpiredRow) (db : DB) (locks : Locks) :
    DB × Locks × List CronEvent :=
  let reservationIds := snapshot.map (·.id)
  let seatLockKeys := snapshot.map fun r => lockKey r.seatId
  let upd := db.cancelBatch reservationIds
  if upd.2 = 0 then (upd.1, locks, [])
  else
    (upd.1, locks.delMany seatLockKeys,
     snapshot.flatMap fun r => [expiredEventBatch r, releasedEventBatch r])

end Cinema.Cleanup

/-! ## The real-time seat view (`SessionsService.findOne`) -/

namespace Cinema.View

/-- JavaScript truthiness of an `mget` entry (`if lockValue ...`):
`null` and the empty string are falsy. -/
def truthy : Option String → Bool
  | none => false
  | some s => s ≠ ""

/-- The seat list returned by `findOne`.  The source `mget`s the lock
keys of the AVAILABLE seats positionally (`locks[i]` belongs to
`availableSeats[i]`), so the constructed `lockedSeatIds` set is exactly
the ids of the AVAILABLE seats whose lock value is truthy; then every
seat that is AVAILABLE in the database and a member of that set is
presented as LOCKED, all others unchanged.  Nothing is written back. -/
def findOneSeats (locks : Locks) (seats : List Seat) : List Seat :=
  let availableSeats := seats.filter fun s => s.status == .AVAILABLE
  let lockedSeatIds : List String :=
    (availableSeats.filter fun s => truthy (locks (lockKey s.id))).map fun s => s.id
  seats.map fun seat =>
    if seat.status == .AVAILABLE && decide (seat.id ∈ lockedSeatIds) then
      { seat with status := .LOCKED }
    else seat

end Cinema.View

/-! ## Interleaved semantics of the database writers (`Cinema.Sys`)

A configuration holds the database, the seat-lock store, and the
in-flight `confirmPayment` calls with their control points.  A step is
one atomic store operation of the source:

* each of `confirmPayment`'s database accesses is its own step — the
  initial `findUnique` (whose result is kept as the call's snapshot),
  the unconditional expiry cancel, and the `$transaction` (atomic:
  commit or rollback), then the post-transaction lock delete;
* `create`'s single database write, the `$transaction` that inserts the
  PENDING rows (its other effects touch only Redis); fresh primary keys
  mirror the id-column uniqueness;
* the cleanup job's conditional cancels (per-item and batch forms);
* `SessionsService.create`'s seat insertion (new AVAILABLE seats,
  fresh ids);
* arbitrary rewrites of the seat-lock store, over-approximating every
  Redis effect of the other operations. -/

namespace Cinema.Sys

/-- Control points of an in-flight `confirmPayment`. -/
inductive CPc
  | start      -- about to run the findUnique
  | classify   -- about to run the pre-checks on the snapshot
  | flip       -- about to run the unconditional CANCELLED update
  | tx         -- about to run the confirm transaction
  | finishing  -- about to publish and delete the seat lock
  | done
deriving DecidableEq, Repr

structure ConfirmCall where
  rid : String
  now : Int
  snapshot : Option Reservation
  pc : CPc
deriving DecidableEq, Repr

/-- Where the pre-checks send the call.  CONFIRMED ends the call (ok
body in the service revision, ConflictException in the action revision
— either way no further store access); CANCELLED ends it
(BadRequestException); an expired snapshot goes to the unconditional
cancel; otherwise the transaction runs. -/
def classifyNext (snapshot : Option Reservation) (now : Int) : CPc :=
  match snapshot with
  | none => .done
  | some r =>
    if r.status = .CONFIRMED then .done
    else if r.status = .CANCELLED then .done
    else if r.expiresAt < now then .flip
    else .tx

structure Config where
  db : DB
  locks : Locks
  calls : List ConfirmCall

/-- One atomic step.  In-flight calls are addressed by decomposing the
call list as `pre ++ c :: post`. -/
inductive Step : Config → Config → Prop
  | spawn (cfg : Config) (rid : String) (now : Int) :
      Step cfg ⟨cfg.db, cfg.locks, ⟨rid, now, none, .start⟩ :: cfg.calls⟩
  | read (db : DB) (locks : Locks) (pre post : List ConfirmCall)
      (c : ConfirmCall) (hpc : c.pc = .start) :
      Step ⟨db, locks, pre ++ c :: post⟩
        ⟨db, locks,
         pre ++ { c with snapshot := db.findReservation c.rid, pc := .classify } :: post⟩
  | classify (db : DB) (locks : Locks) (pre post : List ConfirmCall)
      (c : ConfirmCall) (hpc : c.pc = .classify) :
      Step ⟨db, locks, pre ++ c :: post⟩
        ⟨db, locks, pre ++ { c with pc := classifyNext c.snapshot c.now } :: post⟩
  | flip (db : DB) (locks : Locks) (pre post : List ConfirmCall)
      (c : ConfirmCall) (hpc : c.pc = .flip) :
      Step ⟨db, locks, pre ++ c :: post⟩
        ⟨db.cancelUnconditional c.rid, locks, pre ++ { c with pc := .done } :: post⟩
  | tx (db : DB) (locks : Locks) (pre post : List ConfirmCall)
      (c : ConfirmCall) (r0 : Reservation) (hpc : c.pc = .tx)
      (hsnap : c.snapshot = some r0) :
      Step ⟨db, locks, pre ++ c :: post⟩
        ⟨(db.confirmTx c.rid r0.seatId c.now).1, locks,
         pre ++ { c with pc :=
           match (db.confirmTx c.rid r0.seatId c.now).2 with
           | .committed => .finishing
           | .alreadyConfirmed => .finishing
           | _ => .done } :: post⟩
  | finish (db : DB) (locks : Locks) (pre post : List ConfirmCall)
      (c : ConfirmCall) (r0 : Reservation) (hpc : c.pc = .finishing)
      (hsnap : c.snapshot = some r0) :
      Step ⟨db, locks, pre ++ c :: post⟩
        ⟨db, locks.del (lockKey r0.seatId), pre ++ { c with pc := .done } :: post⟩
  | createCommit (cfg : Config) (rows : List Reservation)
      (hpend : ∀ r ∈ rows, r.status = .PENDING)
      (hnodup : (rows.map Reservation.id).Nodup)
      (hfresh : ∀ r ∈ rows, r.id ∉ cfg.db.reservations.map Reservation.id) :
      Step cfg ⟨⟨cfg.db.seats, cfg.db.reservations ++ rows⟩, cfg.locks, cfg.calls⟩
  | cleanupItem (cfg : Config) (rid : String) (now : Int) :
      Step cfg ⟨(cfg.db.cancelExpiredItem rid now).1, cfg.locks, cfg.calls⟩
  | cleanupBatch (cfg : Config) (ids : List String) :
      Step cfg ⟨(cfg.db.cancelBatch ids).1, cfg.locks, cfg.calls⟩
  | sessionCreate (cfg : Config) (newSeats : List Seat)
      (havail : ∀ s ∈ newSeats, s.status = .AVAILABLE)
      (hnodup : (newSeats.map Seat.id).Nodup)
      (hfresh : ∀ s ∈ newSeats, s.id ∉ cfg.db.seats.map Seat.id) :
      Step cfg ⟨⟨cfg.db.seats ++ newSeats, cfg.db.reservations⟩, cfg.locks, cfg.calls⟩
  | lockWrite (cfg : Config) (locks' : Locks) :
      Step cfg ⟨cfg.db, locks', cfg.calls⟩

/-- The empty genesis configuration. -/
def init : Config := ⟨⟨[], []⟩, fun _ => none, []⟩

def Reachable : Config → Config → Prop := Relation.ReflTransGen Step

/-- Number of CONFIRMED reservations of a seat. -/
def confirmedFor (db : DB) (sid : String) : Nat :=
  db.reservations.countP fun r => r.seatId = sid && r.status == .CONFIRMED

/-- The seat has a SOLD row. -/
def seatSold (db : DB) (sid : String) : Prop :=
  ∃ s ∈ db.seats, s.id = sid ∧ s.status = .SOLD

/-- Database part of the inductive invariant: primary keys are unique,
CONFIRMED reservations only ever sit on SOLD seats, at most one per
seat, and no LOCKED status is ever persisted. -/
def DBInv (db : DB) : Prop :=
  (db.reservations.map Reservation.id).Nodup ∧
  (db.seats.map Seat.id).Nodup ∧
  (∀ s ∈ db.seats, s.status ≠ .LOCKED) ∧
  ∀ sid, confirmedFor db sid ≤ 1 ∧ (1 ≤ confirmedFor db sid → seatSold db sid)

/-- Snapshot part of the invariant: a call's snapshot row is a real row
whose immutable columns (id, seatId, expiresAt, userId) still read the
same. -/
def SnapInv (cfg : Config) : Prop :=
  ∀ c ∈ cfg.calls, ∀ r0 : Reservation, c.snapshot = some r0 →
    r0.id = c.rid ∧
    ∃ row ∈ cfg.db.reservations,
      row.id = r0.id ∧ row.seatId = r0.seatId ∧
      row.expiresAt = r0.expiresAt ∧ row.userId = r0.userId

def Inv (cfg : Config) : Prop := DBInv cfg.db ∧ SnapInv cfg

end Cinema.Sys

/-! ## Interleaved semantics of the idempotency protocol (`Cinema.Idem`)

Two `create` calls with the same `(userId, idempotencyKey)` and body,
within the marker TTL.  The shared state is the idempotency marker;
each call runs the claim protocol of `ReservationsService.create`.
Everything after winning the claim (pre-checks, locks, the insert
transaction, publishing) is folded into a nondeterministic outcome:
the call either fails before creating rows (any pre-check, lock or
transaction failure — the `catch` then deletes the marker) or creates
its rows and stores its final body.  That compression only widens the
set of interleavings visible to the other call, whose sole window into
this call is the marker. -/

namespace Cinema.Idem

inductive IPc
  | initGet          -- the first redis.get of the idempotency gate
  | polling          -- inside the 15-iteration poll loop
  | tryClaim         -- the SET … PX 60000 NX
  | claimFailedRead  -- NX lost: the immediate re-read
  | work             -- first writer, running the main flow
  | storeResp        -- about to store the final body
  | catchDel         -- failed: about to delete the marker
  | done
deriving DecidableEq, Repr

structure ICall where
  pc : IPc
  pollsLeft : Nat
  rowsCreated : Bool
  result : Option (Except AppError Create.Body)
deriving Repr

/-- One step of a single call against the marker. -/
inductive CallStep :
    Option Create.Body → ICall → Option Create.Body → ICall → Prop
  | initHit (m : Option Create.Body) (c : ICall) (r : Create.CreateResponse)
      (hm : m = some (.response r)) (hpc : c.pc = .initGet) :
      CallStep m c m { c with pc := .done, result := some (.ok (.response r)) }
  | initProcessing (m : Option Create.Body) (c : ICall)
      (hm : m = some .processing) (hpc : c.pc = .initGet) :
      CallStep m c m { c with pc := .polling, pollsLeft := 15 }
  | initMiss (m : Option Create.Body) (c : ICall)
      (hm : m = none) (hpc : c.pc = .initGet) :
      CallStep m c m { c with pc := .tryClaim }
  | pollFinal (m : Option Create.Body) (c : ICall) (r : Create.CreateResponse)
      (hm : m = some (.response r)) (hpc : c.pc = .polling)
      (hn : c.pollsLeft ≠ 0) :
      CallStep m c m { c with pc := .done, result := some (.ok (.response r)) }
  | pollAgain (m : Option Create.Body) (c : ICall)
      (hm : m = some .processing ∨ m = none) (hpc : c.pc = .polling)
      (hn : c.pollsLeft ≠ 0) :
      CallStep m c m { c with pollsLeft := c.pollsLeft - 1 }
  | pollExhausted (m : Option Create.Body) (c : ICall)
      (hpc : c.pc = .polling) (hn : c.pollsLeft = 0) :
      CallStep m c m
        { c with pc := .done, result := some (.error (.Conflict "Requisição idempotente em processamento. Tente novamente.")) }
  | claimWin (m : Option Create.Body) (c : ICall)
      (hm : m = none) (hpc : c.pc = .tryClaim) :
      CallStep m c (some .processing) { c with pc := .work }
  | claimLose (m : Option Create.Body) (c : ICall)
      (hm : m ≠ none) (hpc : c.pc = .tryClaim) :
      CallStep m c m { c with pc := .claimFailedRead }
  | loseRead (m : Option Create.Body) (c : ICall) (b : Create.Body)
      (hm : m = some b) (hpc : c.pc = .claimFailedRead) :
      CallStep m c m { c with pc := .done, result := some (.ok b) }
  | loseReadGone (m : Option Create.Body) (c : ICall)
      (hm : m = none) (hpc : c.pc = .claimFailedRead) :
      CallStep m c m
        { c with pc := .done, result := some (.error (.Conflict "Requisição idempotente em processamento.")) }
  | workFails (m : Option Create.Body) (c : ICall) (e : AppError)
      (hpc : c.pc = .work) :
      CallStep m c m { c with pc := .catchDel, result := some (.error e) }
  | workSucceeds (m : Option Create.Body) (c : ICall)
      (hpc : c.pc = .work) :
      CallStep m c m { c with pc := .storeResp, rowsCreated := true }
  | storeStep (m : Option Create.Body) (c : ICall) (r : Create.CreateResponse)
      (hpc : c.pc = .storeResp) :
      CallStep m c (some (.response r))
        { c with pc := .done, result := some (.ok (.response r)) }
  | catchStep (m : Option Create.Body) (c : ICall)
      (hpc : c.pc = .catchDel) :
      CallStep m c none { c with pc := .done }

structure IState where
  marker : Option Create.Body
  c1 : ICall
  c2 : ICall
deriving Repr

/-- Interleaving of the two calls. -/
inductive IStep : IState → IState → Prop
  | left (s : IState) (m' : Option Create.Body) (c' : ICall)
      (h : CallStep s.marker s.c1 m' c') : IStep s ⟨m', c', s.c2⟩
  | right (s : IState) (m' : Option Create.Body) (c' : ICall)
      (h : CallStep s.marker s.c2 m' c') : IStep s ⟨m', s.c1, c'⟩

/-- Fresh start: no marker (the two calls arrive within the TTL of an
unused key). -/
def iinit : IState := ⟨none, ⟨.initGet, 15, false, none⟩, ⟨.initGet, 15, false, none⟩⟩

def IReachable : IState → IState → Prop := Relation.ReflTransGen IStep

/-- The call is between winning the claim and resolving it. -/
def active (c : ICall) : Prop :=
  c.pc = .work ∨ c.pc = .storeResp ∨ c.pc = .catchDel

/-- Inductive invariant of the two-call protocol. -/
def JInv (s : IState) : Prop :=
  (active s.c1 → s.marker = some .processing ∧ ¬ active s.c2) ∧
  (active s.c2 → s.marker = some .processing ∧ ¬ active s.c1) ∧
  (s.c1.rowsCreated → s.c1.pc = .storeResp ∨ s.c1.pc = .done) ∧
  (s.c2.rowsCreated → s.c2.pc = .storeResp ∨ s.c2.pc = .done) ∧
  (s.c1.pc = .done ∧ s.c1.rowsCreated →
    (∃ r, s.marker = some (.response r)) ∧ ¬ s.c2.rowsCreated) ∧
  (s.c2.pc = .done ∧ s.c2.rowsCreated →
    (∃ r, s.marker = some (.response r)) ∧ ¬ s.c1.rowsCreated) ∧
  ((∃ r, s.marker = some (.response r)) → ¬ active s.c1 ∧ ¬ active s.c2) ∧
  (∀ r, s.c1.result = some (.ok (.response r)) → s.marker = some (.response r)) ∧
  (∀ r, s.c2.result = some (.ok (.response r)) → s.marker = some (.response r))

end Cinema.Idem

/-! # Lemmas and claim theorems -/

namespace Cinema

theorem jsLeChars_total : ∀ as bs : List Char, jsLeChars as bs = true ∨ jsLeChars bs as = true := by
  intro as
  induction as with
  | nil => intro bs; left; cases bs <;> rfl
  | cons a as ih =>
    intro bs
    cases bs with
    | nil => right; rfl
    | cons b bs =>
      rcases lt_trichotomy a b with h | h | h
      · left; simp [jsLeChars, h]
      · subst h
        rcases ih bs with hr | hr
        · left; simp [jsLeChars, hr]
        · right; simp [jsLeChars, hr]
      · right; simp [jsLeChars, h]

theorem jsLeChars_antisymm : ∀ as bs : List Char,
    jsLeChars as bs = true → jsLeChars bs as = true → as = bs := by
  intro as
  induction as with
  | nil =>
    intro bs h1 h2
    cases bs with
    | nil => rfl
    | cons b bs => simp [jsLeChars] at h2
  | cons a as ih =>
    intro bs h1 h2
    cases bs with
    | nil => simp [jsLeChars] at h1
    | cons b bs =>
      rcases lt_trichotomy a b with h | h | h
      · simp [jsLeChars, h, not_lt_of_gt h] at h2
      · subst h
        simp only [jsLeChars, lt_irrefl, if_false] at h1 h2
        rw [ih bs h1 h2]
      · simp [jsLeChars, h, not_lt_of_gt h] at h1

theorem jsLeChars_trans : ∀ as bs cs : List Char,
    jsLeChars as bs = true → jsLeChars bs cs = true → jsLeChars as cs = true := by
  intro as
  induction as with
  | nil => intro bs cs _ _; cases cs <;> rfl
  | cons a as ih =>
    intro bs cs h1 h2
    cases bs with
    | nil => simp [jsLeChars] at h1
    | cons b bs =>
      cases cs with
      | nil => simp [jsLeChars] at h2
      | cons c cs =>
        rcases lt_trichotomy a b with hab | hab | hab
        · rcases lt_trichotomy b c with hbc | hbc | hbc
          · simp [jsLeChars, lt_trans hab hbc]
          · subst hbc; simp [jsLeChars, hab]
          · rcases lt_trichotomy a c with hac | hac | hac
            · simp [jsLeChars, hac]
            · subst hac
              exfalso
              simp [jsLeChars, hbc, not_lt_of_gt hbc] at h2
            · exfalso
              simp [jsLeChars, hbc, not_lt_of_gt hbc] at h2
        · subst hab
          rcases lt_trichotomy a c with hac | hac | hac
          · simp [jsLeChars, hac]
          · subst hac
            simp only [jsLeChars, lt_irrefl, if_false] at h1 h2 ⊢
            exact ih bs cs h1 h2
          · exfalso
            simp [jsLeChars, hac, not_lt_of_gt hac] at h2
        · exfalso
          simp [jsLeChars, hab, not_lt_of_gt hab] at h1

theorem jsLe_total (a b : String) : jsLe a b = true ∨ jsLe b a = true :=
  jsLeChars_total a.data b.data

theorem jsLe_antisymm (a b : String) (h1 : jsLe a b = true)
    (h2 : jsLe b a = true) : a = b := by
  cases a with
  | mk as =>
    cases b with
    | mk bs => exact congrArg String.mk (jsLeChars_antisymm as bs h1 h2)

theorem jsLe_trans (a b c : String) (h1 : jsLe a b = true)
    (h2 : jsLe b c = true) : jsLe a c = true :=
  jsLeChars_trans a.data b.data c.data h1 h2

instance : IsTotal String (fun a b => jsLe a b = true) := ⟨jsLe_total⟩

instance : IsTrans String (fun a b => jsLe a b = true) := ⟨jsLe_trans⟩

instance : IsAntisymm String (fun a b => jsLe a b = true) := ⟨jsLe_antisymm⟩

theorem sortSeatIds_perm (l : List String) : (sortSeatIds l).Perm l :=
  List.perm_insertionSort _ l

theorem sortSeatIds_sorted (l : List String) :
    (sortSeatIds l).Sorted (fun a b => jsLe a b = true) :=
  List.sorted_insertionSort _ l

/-- Sorting is canonical: permuted inputs sort identically. -/
theorem sortSeatIds_eq_of_perm (xs ys : List String) (h : xs.Perm ys) :
    sortSeatIds xs = sortSeatIds ys := by
  refine List.eq_of_perm_of_sorted ?_ (sortSeatIds_sorted xs) (sortSeatIds_sorted ys)
  exact ((sortSeatIds_perm xs).trans h).trans (sortSeatIds_perm ys).symm

/-- A successful acquisition loop attempted exactly the lock keys of its
input ids, in order. -/
theorem acquireLocks_keys (userId : String) (locks : Locks) (ids : List String)
    (h : (Create.acquireLocks userId locks ids).2.2 = none) :
    (Create.acquireLocks userId locks ids).2.1 = ids.map lockKey := by
  induction ids generalizing locks with
  | nil => simp [Create.acquireLocks]
  | cons a rest ih =>
    cases hk : locks (lockKey a) with
    | some v =>
      exfalso
      simp [Create.acquireLocks, Locks.setNX, hk] at h
    | none =>
      simp only [Create.acquireLocks, Locks.setNX, hk] at h ⊢
      simp [ih _ h]

/-- `SET NX` never disturbs a present key. -/
theorem acquireLocks_preserves (userId : String) (ids : List String) :
    ∀ (locks : Locks) (k : String) (v : String), locks k = some v →
    (Create.acquireLocks userId locks ids).1 k = some v := by
  induction ids with
  | nil => intro locks k v hk; simpa [Create.acquireLocks] using hk
  | cons a rest ih =>
    intro locks k v hk
    cases hl : locks (lockKey a) with
    | some w => simpa [Create.acquireLocks, Locks.setNX, hl] using hk
    | none =>
      simp only [Create.acquireLocks, Locks.setNX, hl]
      refine ih _ k v ?_
      by_cases hka : k = lockKey a
      · rw [hka] at hk; rw [hk] at hl; cases hl
      · simpa [hka] using hk

/-- A successful acquisition loop ends with every input id locked by the
caller. -/
theorem acquireLocks_sets (userId : String) (ids : List String) :
    ∀ (locks : Locks), (Create.acquireLocks userId locks ids).2.2 = none →
    ∀ sid ∈ ids, (Create.acquireLocks userId locks ids).1 (lockKey sid) = some userId := by
  induction ids with
  | nil => intro locks _ sid hmem; cases hmem
  | cons a rest ih =>
    intro locks h sid hmem
    cases hl : locks (lockKey a) with
    | some w =>
      exfalso; simp [Create.acquireLocks, Locks.setNX, hl] at h
    | none =>
      simp only [Create.acquireLocks, Locks.setNX, hl] at h ⊢
      rcases List.mem_cons.mp hmem with hs | hs
      · subst hs
        exact acquireLocks_preserves userId rest _ _ _ (by simp)
      · exact ih _ h sid hs

/-- C6: every `create` call attempts seat locks in ascending
lexicographic id order; permuted `seatIds` inputs produce the identical
key sequence, independent of caller order. -/
theorem seat_lock_order_deterministic (xs ys : List String) (userId : String)
    (locks : Locks) (h : xs.Perm ys)
    (hacq : (Create.acquireLocks userId locks (sortSeatIds xs)).2.2 = none) :
    lockAttemptSequence xs = lockAttemptSequence ys ∧
    (sortSeatIds xs).Sorted (fun a b => jsLe a b = true) ∧
    (Create.acquireLocks userId locks (sortSeatIds xs)).2.1 = lockAttemptSequence xs := by
  refine ⟨?_, sortSeatIds_sorted xs, ?_⟩
  · unfold lockAttemptSequence
    rw [sortSeatIds_eq_of_perm xs ys h]
  · exact acquireLocks_keys userId locks (sortSeatIds xs) hacq

theorem seat_lock_order_deterministic_witness :
    lockAttemptSequence ["s2", "s1"] = lockAttemptSequence ["s1", "s2"] ∧
    (sortSeatIds ["s2", "s1"]).Sorted (fun a b => jsLe a b = true) ∧
    (Create.acquireLocks "u1" (fun _ => none) (sortSeatIds ["s2", "s1"])).2.1
      = lockAttemptSequence ["s2", "s1"] :=
  seat_lock_order_deterministic ["s2", "s1"] ["s1", "s2"] "u1" (fun _ => none)
    (by decide) (by decide)

/-- C7: the per-subscription error handler republishes a message whose
`x-retry-count` parses to `n` to `cinema_retry` with per-message
expiration `min(30000, 1000·2^n)` and the count bumped to `n+1` while
`n < 5`, and to `cinema_dlq` once `n ≥ 5`; either way the original
`contentType`, `contentEncoding`, `correlationId`, `messageId`,
`timestamp`, `type` and `appId` are copied unchanged. -/
theorem retry_backoff_routing (msg : Retry.DeliveredMsg) (n : Nat)
    (h : msg.headers.xRetryCount = some n) :
    (n < 5 →
      Retry.defaultRetryHandle msg =
        { exchange := "cinema_retry"
          routingKey := msg.routingKey
          content := msg.content
          persistent := true
          props := msg.props
          headers :=
            ⟨n + 1, msg.headers.xOriginalExchange.getD msg.exchange,
             msg.headers.xOriginalRoutingKey.getD msg.routingKey, msg.errorMessage⟩
          expiration := some (toString (min 30000 (1000 * 2 ^ n))) }) ∧
    (5 ≤ n →
      Retry.defaultRetryHandle msg =
        { exchange := "cinema_dlq"
          routingKey := msg.routingKey
          content := msg.content
          persistent := true
          props := msg.props
          headers :=
            ⟨n + 1, msg.headers.xOriginalExchange.getD msg.exchange,
             msg.headers.xOriginalRoutingKey.getD msg.routingKey, msg.errorMessage⟩
          expiration := none }) := by
  constructor
  · intro hlt
    simp [Retry.defaultRetryHandle, Retry.exponentialRetryHandle, Retry.toSafeNumber, h,
      Nat.not_le.mpr hlt]
  · intro hge
    simp [Retry.defaultRetryHandle, Retry.exponentialRetryHandle, Retry.toSafeNumber, h, hge]

def retryMsgW : Retry.DeliveredMsg :=
  ⟨"cinema_events", "payment.confirmed", "m",
   ⟨some "application/json", none, none, some "id-1", some 5, none, some "app"⟩,
   ⟨some 2, none, none⟩, "boom"⟩

theorem retry_backoff_routing_witness :
    (Retry.defaultRetryHandle retryMsgW).exchange = "cinema_retry" ∧
    (Retry.defaultRetryHandle retryMsgW).expiration = some "4000" ∧
    (Retry.defaultRetryHandle retryMsgW).headers.xRetryCount = 3 ∧
    (Retry.defaultRetryHandle retryMsgW).props = retryMsgW.props := by
  have h := (retry_backoff_routing retryMsgW 2 rfl).1 (by decide)
  rw [h]
  refine ⟨rfl, rfl, rfl, rfl⟩

end Cinema

namespace Cinema

/-- A database whose reservation `res-1` is already CONFIRMED (its seat
sold), for the concrete evaluations below. -/
def dbConfirmedW : DB :=
  ⟨[⟨"seat-1", "sess-1", "A", 1, .SOLD⟩],
   [⟨"res-1", "user-1", "seat-1", .CONFIRMED, 1000⟩]⟩

/-- C3 counterexample: calling `ReservationsService.confirmPayment` on a
reservation that is already CONFIRMED does not fail with Conflict — the
service returns an ok body (Pagamento já foi processado anteriormente)
and publishes nothing. -/
theorem confirm_already_paid_counterexample :
    (Confirm.confirmPaymentService dbConfirmedW (fun _ => none) "res-1" 0).result
      = .ok "Pagamento já foi processado anteriormente." ∧
    (Confirm.confirmPaymentService dbConfirmedW (fun _ => none) "res-1" 0).events = [] :=
  ⟨rfl, rfl⟩

/-- C3 (amended): on an already-CONFIRMED reservation no variant
publishes an event or touches any store, but only
`ConfirmPaymentAction.execute` fails with Conflict;
`ReservationsService.confirmPayment` (the path the HTTP controller
calls) returns an ok body instead. -/
theorem confirm_already_paid_amended (db : DB) (locks : Locks) (rid : String)
    (now : Int) (r : Reservation) (hfind : db.findReservation rid = some r)
    (hst : r.status = .CONFIRMED) :
    ((Confirm.confirmPaymentService db locks rid now).result
        = .ok "Pagamento já foi processado anteriormente." ∧
      (Confirm.confirmPaymentService db locks rid now).events = [] ∧
      (Confirm.confirmPaymentService db locks rid now).db = db ∧
      (Confirm.confirmPaymentService db locks rid now).locks = locks) ∧
    ((Confirm.confirmPaymentAction db locks rid now).result
        = .error (.Conflict "Pagamento já confirmado para esta reserva.") ∧
      (Confirm.confirmPaymentAction db locks rid now).events = [] ∧
      (Confirm.confirmPaymentAction db locks rid now).db = db ∧
      (Confirm.confirmPaymentAction db locks rid now).locks = locks) := by
  unfold Confirm.confirmPaymentService Confirm.confirmPaymentAction
  rw [hfind]
  simp [hst]

theorem confirm_already_paid_amended_witness :
    (Confirm.confirmPaymentService dbConfirmedW (fun _ => none) "res-1" 7).result
      = .ok "Pagamento já foi processado anteriormente." ∧
    (Confirm.confirmPaymentAction dbConfirmedW (fun _ => none) "res-1" 7).result
      = .error (.Conflict "Pagamento já confirmado para esta reserva.") := by
  have h := confirm_already_paid_amended dbConfirmedW (fun _ => none) "res-1" 7
    ⟨"res-1", "user-1", "seat-1", .CONFIRMED, 1000⟩ rfl rfl
  exact ⟨h.1.1, h.2.1⟩

/-- With unique seat primary keys, a duplicated requested id makes the
`findMany` result strictly shorter than the request. -/
theorem filter_mem_length_lt (seats : List Seat) (ids : List String)
    (hdb : (seats.map Seat.id).Nodup) (hdup : ¬ ids.Nodup) :
    (seats.filter fun s => decide (s.id ∈ ids)).length < ids.length := by
  have hsubl : ((seats.filter fun s => decide (s.id ∈ ids)).map Seat.id).Nodup :=
    ((List.filter_sublist seats).map Seat.id).nodup hdb
  have hss : ((seats.filter fun s => decide (s.id ∈ ids)).map Seat.id) ⊆ ids.dedup := by
    intro x hx
    rw [List.mem_dedup]
    rcases List.mem_map.mp hx with ⟨s, hs, hsx⟩
    have hmem := List.of_mem_filter hs
    subst hsx
    simpa using hmem
  have h1 : ((seats.filter fun s => decide (s.id ∈ ids)).map Seat.id).length
      ≤ ids.dedup.length :=
    (List.subperm_of_subset hsubl hss).length_le
  have h2 : ids.dedup.length < ids.length := by
    rcases lt_or_eq_of_le (ids.dedup_sublist.length_le) with h | h
    · exact h
    · exfalso
      apply hdup
      have := ids.dedup_sublist.eq_of_length h
      rw [← this]
      exact ids.nodup_dedup
  have := lt_of_le_of_lt h1 h2
  simpa using this

/-- C10: a `create` call whose `seatIds` contain a duplicate fails with
`NotFound` (Um ou mais assentos não foram encontrados) even when every
referenced seat exists and is AVAILABLE, acquiring no lock, creating no
row and publishing nothing. -/
theorem create_duplicate_seatIds_notfound (dto : Create.CreateReservationDto)
    (idempotencyKey : Option String) (db : DB) (locks : Locks)
    (idem : Create.Idem) (nowMs : Int) (rowIds : List String)
    (txFail : Option AppError)
    (hdup : ¬ dto.seatIds.Nodup)
    (hdb : (db.seats.map Seat.id).Nodup)
    (hexist : ∀ sid ∈ dto.seatIds, ∃ s ∈ db.seats, s.id = sid ∧ s.status = .AVAILABLE)
    (hidem : ∀ c, idem c = none) :
    (Create.createService dto idempotencyKey db locks idem nowMs rowIds txFail).result
      = .error (.NotFound "Um ou mais assentos não foram encontrados.") ∧
    (Create.createService dto idempotencyKey db locks idem nowMs rowIds txFail).db = db ∧
    (Create.createService dto idempotencyKey db locks idem nowMs rowIds txFail).locks = locks ∧
    (Create.createService dto idempotencyKey db locks idem nowMs rowIds txFail).events = [] := by
  have hlt : (db.seats.filter fun s => decide (s.id ∈ sortSeatIds dto.seatIds)).length
      < (sortSeatIds dto.seatIds).length := by
    have hperm := sortSeatIds_perm dto.seatIds
    have hdup' : ¬ (sortSeatIds dto.seatIds).Nodup := fun hnd =>
      hdup (hperm.nodup_iff.mp hnd)
    have := filter_mem_length_lt db.seats (sortSeatIds dto.seatIds) hdb hdup'
    simpa [hperm.length_eq] using this
  have hne : ((db.seats.filter fun s => decide (s.id ∈ sortSeatIds dto.seatIds)).length
      ≠ (sortSeatIds dto.seatIds).length) := Nat.ne_of_lt hlt
  unfold Create.createService Create.createCall
  cases hn : (Create.normalizeIdempotencyKey idempotencyKey).map (idemKeyOf dto.userId) with
  | none =>
    unfold Create.mainFlow
    simp [hne]
  | some ck =>
    dsimp only
    rw [hidem ck]
    unfold Create.mainFlow
    simp [hne]

theorem create_duplicate_seatIds_notfound_witness :
    (Create.createService ⟨["s1", "s1"], "u1"⟩ none
        ⟨[⟨"s1", "sess-1", "A", 1, .AVAILABLE⟩], []⟩ (fun _ => none)
        (fun _ => none) 0 ["r1", "r2"] none).result
      = .error (.NotFound "Um ou mais assentos não foram encontrados.") ∧
    (Create.createService ⟨["s1", "s1"], "u1"⟩ none
        ⟨[⟨"s1", "sess-1", "A", 1, .AVAILABLE⟩], []⟩ (fun _ => none)
        (fun _ => none) 0 ["r1", "r2"] none).events = [] := by
  have h := create_duplicate_seatIds_notfound ⟨["s1", "s1"], "u1"⟩ none
    ⟨[⟨"s1", "sess-1", "A", 1, .AVAILABLE⟩], []⟩ (fun _ => none)
    (fun _ => none) 0 ["r1", "r2"] none (by decide) (by decide)
    (by
      intro sid hsid
      simp only [List.mem_cons, List.not_mem_nil, or_false, or_self] at hsid
      subst hsid
      exact ⟨⟨"s1", "sess-1", "A", 1, .AVAILABLE⟩, by simp, rfl, rfl⟩)
    (fun _ => rfl)
  exact ⟨h.1, h.2.2.2⟩

end Cinema

namespace Cinema

/-- Two AVAILABLE seats and no reservations, for the create evaluations. -/
def c4db : DB :=
  ⟨[⟨"s1", "sess-1", "A", 1, .AVAILABLE⟩, ⟨"s2", "sess-1", "A", 2, .AVAILABLE⟩], []⟩

/-- C4 counterexample: in `ReservationsService.create`, when both seat
locks were acquired and the reservation transaction then fails, the
`catch` deletes the idempotency marker and surfaces the error — but the
two acquired seat locks are NOT released; they are still held by the
caller afterwards. -/
theorem create_txfail_counterexample :
    (Create.createService ⟨["s1", "s2"], "u1"⟩ (some "k") c4db (fun _ => none)
        (fun _ => none) 0 ["r1", "r2"] (some (.Internal "db down"))).result
      = .error (.Internal "db down") ∧
    (Create.createService ⟨["s1", "s2"], "u1"⟩ (some "k") c4db (fun _ => none)
        (fun _ => none) 0 ["r1", "r2"] (some (.Internal "db down"))).locks
        (lockKey "s1") = some "u1" ∧
    (Create.createService ⟨["s1", "s2"], "u1"⟩ (some "k") c4db (fun _ => none)
        (fun _ => none) 0 ["r1", "r2"] (some (.Internal "db down"))).locks
        (lockKey "s2") = some "u1" ∧
    (Create.createService ⟨["s1", "s2"], "u1"⟩ (some "k") c4db (fun _ => none)
        (fun _ => none) 0 ["r1", "r2"] (some (.Internal "db down"))).idem
        (idemKeyOf "u1" "k") = none :=
  ⟨rfl, rfl, rfl, rfl⟩

/-- C4 (amended): when all seat locks were acquired and the transaction
fails, `ReservationsService.create` deletes the idempotency processing
marker and surfaces the original error unchanged, but releases no seat
lock — every acquired `lock:seat:` key stays held by the caller until
its TTL; the refactored `CreateReservationAction.execute` additionally
releases all acquired locks. -/
theorem create_txfail_compensation (dto : Create.CreateReservationDto)
    (key nk : String) (db : DB) (locks : Locks) (idem : Create.Idem)
    (nowMs : Int) (rowIds : List String) (e : AppError)
    (hnk : Create.normalizeIdempotencyKey (some key) = some nk)
    (hmark : idem (idemKeyOf dto.userId nk) = none)
    (hlen : (db.seats.filter fun s => decide (s.id ∈ sortSeatIds dto.seatIds)).length
      = (sortSeatIds dto.seatIds).length)
    (hsold : ((db.seats.filter fun s => decide (s.id ∈ sortSeatIds dto.seatIds)).filter
      fun s => s.status ≠ SeatStatus.AVAILABLE) = [])
    (hacq : (Create.acquireLocks dto.userId locks (sortSeatIds dto.seatIds)).2.2 = none) :
    ((Create.createService dto (some key) db locks idem nowMs rowIds (some e)).result
        = .error e ∧
      (Create.createService dto (some key) db locks idem nowMs rowIds (some e)).idem
        (idemKeyOf dto.userId nk) = none ∧
      (∀ sid ∈ dto.seatIds,
        (Create.createService dto (some key) db locks idem nowMs rowIds (some e)).locks
          (lockKey sid) = some dto.userId) ∧
      (Create.createService dto (some key) db locks idem nowMs rowIds (some e)).db = db ∧
      (Create.createService dto (some key) db locks idem nowMs rowIds (some e)).events = []) ∧
    ((Create.createAction dto (some key) db locks idem nowMs rowIds (some e)).result
        = .error e ∧
      (Create.createAction dto (some key) db locks idem nowMs rowIds (some e)).idem
        (idemKeyOf dto.userId nk) = none ∧
      (∀ sid ∈ dto.seatIds,
        (Create.createAction dto (some key) db locks idem nowMs rowIds (some e)).locks
          (lockKey sid) = none) ∧
      (Create.createAction dto (some key) db locks idem nowMs rowIds (some e)).db = db) := by
  have hmem : ∀ sid, sid ∈ dto.seatIds → sid ∈ sortSeatIds dto.seatIds := fun sid hs =>
    (sortSeatIds_perm dto.seatIds).mem_iff.mpr hs
  unfold Create.createService Create.createAction Create.createCall
  rw [hnk]
  dsimp only [Option.map_some']
  rw [hmark]
  unfold Create.mainFlow
  simp only [hlen, ne_eq, not_true_eq_false, if_false, hsold, ite_false, hacq,
    not_false_eq_true, if_true, ite_self]
  rw [acquireLocks_keys _ _ _ hacq]
  refine ⟨⟨by trivial, by simp [Create.delIdem], ?_, by trivial, by trivial⟩,
    ⟨by trivial, by simp [Create.delIdem], ?_, by trivial⟩⟩
  · intro sid hs
    exact acquireLocks_sets dto.userId (sortSeatIds dto.seatIds) locks hacq sid (hmem sid hs)
  · intro sid hs
    simp only [Locks.delMany]
    rw [if_pos (List.mem_map_of_mem lockKey (hmem sid hs))]

theorem create_txfail_compensation_witness :
    (Create.createService ⟨["s1", "s2"], "u1"⟩ (some "k") c4db (fun _ => none)
        (fun _ => none) 5 ["r1", "r2"] (some (.Internal "db down"))).result
      = .error (.Internal "db down") ∧
    (∀ sid ∈ (["s1", "s2"] : List String),
      (Create.createService ⟨["s1", "s2"], "u1"⟩ (some "k") c4db (fun _ => none)
          (fun _ => none) 5 ["r1", "r2"] (some (.Internal "db down"))).locks
        (lockKey sid) = some "u1") ∧
    (∀ sid ∈ (["s1", "s2"] : List String),
      (Create.createAction ⟨["s1", "s2"], "u1"⟩ (some "k") c4db (fun _ => none)
          (fun _ => none) 5 ["r1", "r2"] (some (.Internal "db down"))).locks
        (lockKey sid) = none) := by
  have h := create_txfail_compensation ⟨["s1", "s2"], "u1"⟩ "k" "k" c4db
    (fun _ => none) (fun _ => none) 5 ["r1", "r2"] (.Internal "db down")
    rfl rfl (by decide) (by decide) (by decide)
  exact ⟨h.1.1, h.1.2.2.1, h.2.2.2.1⟩

end Cinema

namespace Cinema

/-- A conditional `updateMany` that affected no row left the table
untouched. -/
theorem countP_zero_map_id (l : List Reservation) (p : Reservation → Bool)
    (g : Reservation → Reservation) (h : l.countP p = 0) :
    (l.map fun r => if p r then g r else r) = l := by
  induction l with
  | nil => rfl
  | cons a t ih =>
    rw [List.countP_cons] at h
    by_cases hp : p a
    · simp [hp] at h
    · simp only [List.map_cons, if_neg hp]
      rw [ih (by omega)]

theorem cancelExpiredItem_zero (db : DB) (rid : String) (now : Int)
    (h : (db.cancelExpiredItem rid now).2 = 0) :
    (db.cancelExpiredItem rid now).1 = db := by
  have hres := countP_zero_map_id db.reservations (cancelItemCond rid now)
    (fun r => { r with status := .CANCELLED }) h
  unfold DB.cancelExpiredItem
  simp only
  rw [hres]

/-- Cancelling one id does not change whether another id would cancel. -/
theorem willCancel_cancel_other (db : DB) (rid rid' : String) (now : Int)
    (hne : rid' ≠ rid) :
    Cleanup.willCancel (db.cancelExpiredItem rid now).1 now rid'
      = Cleanup.willCancel db now rid' := by
  unfold Cleanup.willCancel DB.cancelExpiredItem
  simp only [List.countP_map]
  congr 1
  apply List.countP_congr
  intro x _
  by_cases hx : cancelItemCond rid now x
  · have hid : x.id = rid := by
      unfold cancelItemCond at hx
      simp only [Bool.and_eq_true, decide_eq_true_eq] at hx
      exact hx.1.1
    simp only [Function.comp, if_pos hx]
    unfold cancelItemCond
    simp [hid, hne.symm]
  · simp [Function.comp, if_neg hx]

/-- The per-item loop never writes a lock key back. -/
theorem runPerItem_locks_none (now : Int) (snapshot : List Cleanup.ExpiredRow) :
    ∀ (db : DB) (locks : Locks) (k : String), locks k = none →
    (Cleanup.runPerItem now snapshot db locks).2.1 k = none := by
  induction snapshot with
  | nil => intro db locks k hk; exact hk
  | cons r rest ih =>
    intro db locks k hk
    unfold Cleanup.runPerItem
    by_cases hc : (db.cancelExpiredItem r.id now).2 = 0
    · simp only [if_pos hc]
      exact ih _ _ _ hk
    · simp only [if_neg hc]
      exact ih _ _ _ (by simp [Locks.del, hk])

theorem flatMap_congr {α β : Type} (l : List α) (f g : α → List β)
    (h : ∀ x ∈ l, f x = g x) : l.flatMap f = l.flatMap g := by
  induction l with
  | nil => rfl
  | cons a t ih =>
    simp only [List.flatMap_cons]
    rw [h a (by simp), ih fun x hx => h x (by simp [hx])]

/-- C9 counterexample (batch revision): the job read `r1` and `r2` as
expired PENDING, but `r1` was confirmed concurrently before the batch
`updateMany`; the update transitions only `r2` (count 1 ≠ 0), yet the
job publishes the `reservation.expired`/`seat.released` pair for `r1`
as well and deletes `r1`'s seat lock, while `r1` is still CONFIRMED. -/
theorem cleanup_batch_counterexample :
    (Cleanup.runBatch [⟨"r1", "s1", "u1"⟩, ⟨"r2", "s2", "u2"⟩]
        ⟨[⟨"s1", "sess-1", "A", 1, .SOLD⟩, ⟨"s2", "sess-1", "A", 2, .AVAILABLE⟩],
         [⟨"r1", "u1", "s1", .CONFIRMED, 100⟩, ⟨"r2", "u2", "s2", .PENDING, 100⟩]⟩
        (fun _ => some "owner")).2.2
      = [Cleanup.expiredEventBatch ⟨"r1", "s1", "u1"⟩,
         Cleanup.releasedEventBatch ⟨"r1", "s1", "u1"⟩,
         Cleanup.expiredEventBatch ⟨"r2", "s2", "u2"⟩,
         Cleanup.releasedEventBatch ⟨"r2", "s2", "u2"⟩] ∧
    (Cleanup.runBatch [⟨"r1", "s1", "u1"⟩, ⟨"r2", "s2", "u2"⟩]
        ⟨[⟨"s1", "sess-1", "A", 1, .SOLD⟩, ⟨"s2", "sess-1", "A", 2, .AVAILABLE⟩],
         [⟨"r1", "u1", "s1", .CONFIRMED, 100⟩, ⟨"r2", "u2", "s2", .PENDING, 100⟩]⟩
        (fun _ => some "owner")).1.resStatus "r1" = some .CONFIRMED ∧
    (Cleanup.runBatch [⟨"r1", "s1", "u1"⟩, ⟨"r2", "s2", "u2"⟩]
        ⟨[⟨"s1", "sess-1", "A", 1, .SOLD⟩, ⟨"s2", "sess-1", "A", 2, .AVAILABLE⟩],
         [⟨"r1", "u1", "s1", .CONFIRMED, 100⟩, ⟨"r2", "u2", "s2", .PENDING, 100⟩]⟩
        (fun _ => some "owner")).2.1 (lockKey "s1") = none :=
  ⟨rfl, rfl, rfl⟩


/-- Events of the per-item loop, characterized against the database the
loop started from: exactly the pair for each candidate whose own
conditional cancel reports a row, in order. -/
theorem runPerItem_events (now : Int) :
    ∀ (snapshot : List Cleanup.ExpiredRow) (db : DB) (locks : Locks),
    (snapshot.map Cleanup.ExpiredRow.id).Nodup →
    (Cleanup.runPerItem now snapshot db locks).2.2
      = snapshot.flatMap fun r =>
          if Cleanup.willCancel db now r.id then
            [Cleanup.expiredEventItem r, Cleanup.releasedEventItem r]
          else [] := by
  intro snapshot
  induction snapshot with
  | nil => intro db locks _; rfl
  | cons r rest ih =>
    intro db locks hnodup
    simp only [List.map_cons, List.nodup_cons] at hnodup
    unfold Cleanup.runPerItem
    by_cases hc : (db.cancelExpiredItem r.id now).2 = 0
    · have hdb := cancelExpiredItem_zero db r.id now hc
      have hwc : Cleanup.willCancel db now r.id = false := by
        unfold Cleanup.willCancel
        unfold DB.cancelExpiredItem at hc
        simp only at hc
        simp [hc]
      simp only [if_pos hc, hdb, List.flatMap_cons, hwc, Bool.false_eq_true,
        if_false, List.nil_append]
      exact ih db locks hnodup.2
    · have hwc : Cleanup.willCancel db now r.id = true := by
        unfold Cleanup.willCancel
        unfold DB.cancelExpiredItem at hc
        simp only at hc
        simp [hc]
      simp only [if_neg hc, List.flatMap_cons, hwc, if_true]
      rw [ih ((db.cancelExpiredItem r.id now).1) (locks.del (lockKey r.seatId)) hnodup.2]
      simp only [List.cons_append, List.nil_append]
      congr 2
      apply flatMap_congr
      intro x hx
      have hne : x.id ≠ r.id := by
        intro he
        exact hnodup.1 (he ▸ List.mem_map_of_mem Cleanup.ExpiredRow.id hx)
      rw [willCancel_cancel_other db r.id x.id now hne]

/-- The per-item loop deletes the seat-lock key of every candidate it
transitions. -/
theorem runPerItem_lock_deleted (now : Int) :
    ∀ (snapshot : List Cleanup.ExpiredRow) (db : DB) (locks : Locks),
    (snapshot.map Cleanup.ExpiredRow.id).Nodup →
    ∀ r ∈ snapshot, Cleanup.willCancel db now r.id = true →
    (Cleanup.runPerItem now snapshot db locks).2.1 (lockKey r.seatId) = none := by
  intro snapshot
  induction snapshot with
  | nil => intro db locks _ r hr; cases hr
  | cons a rest ih =>
    intro db locks hnodup r hr hwc
    simp only [List.map_cons, List.nodup_cons] at hnodup
    unfold Cleanup.runPerItem
    rcases List.mem_cons.mp hr with rfl | hr'
    · have hc : ¬ (db.cancelExpiredItem r.id now).2 = 0 := by
        unfold Cleanup.willCancel at hwc
        unfold DB.cancelExpiredItem
        simp only
        simpa using hwc
      simp only [if_neg hc]
      exact runPerItem_locks_none now rest _ _ _ (by simp [Locks.del])
    · by_cases hc : (db.cancelExpiredItem a.id now).2 = 0
      · have hdb := cancelExpiredItem_zero db a.id now hc
        simp only [if_pos hc, hdb]
        exact ih db locks hnodup.2 r hr' hwc
      · simp only [if_neg hc]
        have hne : r.id ≠ a.id := by
          intro he
          exact hnodup.1 (he ▸ List.mem_map_of_mem Cleanup.ExpiredRow.id hr')
        refine ih ((db.cancelExpiredItem a.id now).1) _ hnodup.2 r hr' ?_
        rw [willCancel_cancel_other db a.id r.id now hne]
        exact hwc

/-- The batch job, once any candidate is still PENDING, publishes the
pair and deletes the lock for every candidate of the read. -/
theorem runBatch_events_all (snapshot : List Cleanup.ExpiredRow) (db : DB)
    (locks : Locks)
    (hex : ∃ r0 ∈ snapshot, ∃ row ∈ db.reservations,
      row.id = r0.id ∧ row.status = .PENDING) :
    ∀ r ∈ snapshot,
      Cleanup.expiredEventBatch r ∈ (Cleanup.runBatch snapshot db locks).2.2 ∧
      Cleanup.releasedEventBatch r ∈ (Cleanup.runBatch snapshot db locks).2.2 ∧
      (Cleanup.runBatch snapshot db locks).2.1 (lockKey r.seatId) = none := by
  rcases hex with ⟨r0, hr0, row, hrow, hid, hst⟩
  intro r hr
  have hcount : ¬ (db.cancelBatch (snapshot.map fun x => x.id)).2 = 0 := by
    unfold DB.cancelBatch
    simp only
    have hpos : 0 < db.reservations.countP
        (cancelBatchCond (snapshot.map fun x => x.id)) := by
      rw [List.countP_pos_iff]
      refine ⟨row, hrow, ?_⟩
      unfold cancelBatchCond
      have : row.id ∈ snapshot.map fun x => x.id := by
        rw [hid]
        exact List.mem_map_of_mem _ hr0
      simp [this, hst]
    omega
  unfold Cleanup.runBatch
  simp only [if_neg hcount]
  refine ⟨?_, ?_, ?_⟩
  · rw [List.mem_flatMap]
    exact ⟨r, hr, by simp⟩
  · rw [List.mem_flatMap]
    exact ⟨r, hr, by simp⟩
  · simp only [Locks.delMany]
    rw [if_pos]
    exact List.mem_map_of_mem (fun x => lockKey x.seatId) hr

/-- C9 (amended): the per-item revision of `handleCron` publishes
exactly one `reservation.expired` and one `seat.released` and deletes
the seat lock for each candidate its own conditional cancel actually
transitioned, and for no other; the batch revision, whenever any
candidate is still PENDING, deletes the lock and publishes the pair for
every candidate of its earlier read — transitioned or not. -/
theorem cleanup_publishes_per_transition (now : Int)
    (snapshot : List Cleanup.ExpiredRow) (db : DB) (locks : Locks)
    (hnodup : (snapshot.map Cleanup.ExpiredRow.id).Nodup) :
    ((Cleanup.runPerItem now snapshot db locks).2.2
      = snapshot.flatMap fun r =>
          if Cleanup.willCancel db now r.id then
            [Cleanup.expiredEventItem r, Cleanup.releasedEventItem r]
          else []) ∧
    (∀ r ∈ snapshot, Cleanup.willCancel db now r.id = true →
      (Cleanup.runPerItem now snapshot db locks).2.1 (lockKey r.seatId) = none) ∧
    ((∃ r0 ∈ snapshot, ∃ row ∈ db.reservations,
        row.id = r0.id ∧ row.status = .PENDING) →
      ∀ r ∈ snapshot,
        Cleanup.expiredEventBatch r ∈ (Cleanup.runBatch snapshot db locks).2.2 ∧
        Cleanup.releasedEventBatch r ∈ (Cleanup.runBatch snapshot db locks).2.2 ∧
        (Cleanup.runBatch snapshot db locks).2.1 (lockKey r.seatId) = none) :=
  ⟨runPerItem_events now snapshot db locks hnodup,
   runPerItem_lock_deleted now snapshot db locks hnodup,
   fun hex => runBatch_events_all snapshot db locks hex⟩

theorem cleanup_publishes_per_transition_witness :
    (Cleanup.runPerItem 200 [⟨"r1", "s1", "u1"⟩]
        ⟨[⟨"s1", "sess-1", "A", 1, .AVAILABLE⟩],
         [⟨"r1", "u1", "s1", .PENDING, 100⟩]⟩ (fun _ => some "u1")).2.2
      = [Cleanup.expiredEventItem ⟨"r1", "s1", "u1"⟩,
         Cleanup.releasedEventItem ⟨"r1", "s1", "u1"⟩] ∧
    (Cleanup.runPerItem 200 [⟨"r1", "s1", "u1"⟩]
        ⟨[⟨"s1", "sess-1", "A", 1, .AVAILABLE⟩],
         [⟨"r1", "u1", "s1", .PENDING, 100⟩]⟩ (fun _ => some "u1")).2.1
        (lockKey "s1") = none := by
  have h := cleanup_publishes_per_transition 200 [⟨"r1", "s1", "u1"⟩]
    ⟨[⟨"s1", "sess-1", "A", 1, .AVAILABLE⟩], [⟨"r1", "u1", "s1", .PENDING, 100⟩]⟩
    (fun _ => some "u1") (by decide)
  refine ⟨?_, h.2.1 ⟨"r1", "s1", "u1"⟩ (by decide) (by decide)⟩
  rw [h.1]
  rfl

end Cinema

namespace Cinema

/-- The confirm transaction never writes LOCKED (its only seat write is
AVAILABLE to SOLD, and aborts leave the table as it was). -/
theorem confirmTx_no_locked (db : DB) (rid sid : String) (now : Int)
    (h : ∀ s ∈ db.seats, s.status ≠ .LOCKED) :
    ∀ s ∈ (db.confirmTx rid sid now).1.seats, s.status ≠ .LOCKED := by
  unfold DB.confirmTx
  by_cases hc1 : (db.conditionalConfirm rid now).2 = 0
  · simp only [hc1, if_pos rfl]
    cases hfind : db.findReservation rid with
    | none => simpa using h
    | some latest =>
      by_cases h1 : latest.status = .CONFIRMED
      · simpa [h1] using h
      · by_cases h2 : latest.status = .CANCELLED
        · simpa [h1, h2] using h
        · simpa [h1, h2] using h
  · simp only [if_neg hc1]
    by_cases hc2 : ((db.conditionalConfirm rid now).1.conditionalSellSeat sid).2 = 0
    · simpa [hc2] using h
    · simp only [if_neg hc2]
      intro s hs
      unfold DB.conditionalSellSeat DB.conditionalConfirm at hs
      simp only [List.mem_map] at hs
      rcases hs with ⟨s0, hs0, hmap⟩
      by_cases hcond : sellCond sid s0
      · rw [← hmap]
        simp [hcond]
      · rw [← hmap]
        simp only [if_neg hcond]
        exact h s0 hs0

/-- No step of the system ever persists a LOCKED seat status. -/
theorem step_no_locked (cfg cfg' : Sys.Config) (hstep : Sys.Step cfg cfg')
    (hno : ∀ s ∈ cfg.db.seats, s.status ≠ .LOCKED) :
    ∀ s ∈ cfg'.db.seats, s.status ≠ .LOCKED := by
  cases hstep with
  | spawn cfg rid now => exact hno
  | read db locks pre post c hpc => exact hno
  | classify db locks pre post c hpc => exact hno
  | flip db locks pre post c hpc => exact hno
  | tx db locks pre post c r0 hpc hsnap => exact confirmTx_no_locked db c.rid r0.seatId c.now hno
  | finish db locks pre post c r0 hpc hsnap => exact hno
  | createCommit cfg rows hpend hnodup hfresh => exact hno
  | cleanupItem cfg rid now => exact hno
  | cleanupBatch cfg ids => exact hno
  | sessionCreate cfg newSeats havail hnodup hfresh =>
    intro s hs
    rcases List.mem_append.mp hs with hs | hs
    · exact hno s hs
    · rw [havail s hs]
      intro hcontra
      cases hcontra
  | lockWrite cfg locks' => exact hno

/-- C8: for a seat whose database status is AVAILABLE the read path
returns LOCKED exactly when the coordination store holds its
`lock:seat:` key (lock values are userIds, never the empty string);
any other seat — in particular a SOLD one — is returned unchanged, and
the LOCKED status is only ever computed in the response, never written
to the database by any step of the system. -/
theorem session_view_roundtrip (locks : Locks) (seats : List Seat)
    (hval : ∀ k v, locks k = some v → v ≠ "") :
    (View.findOneSeats locks seats = seats.map fun seat =>
      if seat.status = .AVAILABLE ∧ locks (lockKey seat.id) ≠ none then
        { seat with status := .LOCKED }
      else seat) ∧
    (∀ cfg cfg', Sys.Step cfg cfg' →
      (∀ s ∈ cfg.db.seats, s.status ≠ .LOCKED) →
      ∀ s ∈ cfg'.db.seats, s.status ≠ .LOCKED) := by
  constructor
  · unfold View.findOneSeats
    apply List.map_congr_left
    intro x hx
    by_cases hav : x.status = .AVAILABLE
    · have hmemI : (x.id ∈ ((seats.filter fun s => s.status == SeatStatus.AVAILABLE).filter
          fun s => View.truthy (locks (lockKey s.id))).map fun s => s.id)
          ↔ locks (lockKey x.id) ≠ none := by
        constructor
        · intro hm
          rcases List.mem_map.mp hm with ⟨s, hs, hsid⟩
          have htr := (List.mem_filter.mp hs).2
          rw [hsid] at htr
          intro hnone
          rw [hnone] at htr
          cases htr
        · intro hnn
          cases hloc : locks (lockKey x.id) with
          | none => exact absurd hloc hnn
          | some v =>
            have hv := hval _ _ hloc
            refine List.mem_map.mpr ⟨x, ?_, rfl⟩
            refine List.mem_filter.mpr ⟨List.mem_filter.mpr ⟨hx, by simp [hav]⟩, ?_⟩
            simp [View.truthy, hloc, hv]
      by_cases hnn : locks (lockKey x.id) = none
      · have h1 : ¬ ((x.status == SeatStatus.AVAILABLE
            && decide (x.id ∈ ((seats.filter fun s => s.status == SeatStatus.AVAILABLE).filter
              fun s => View.truthy (locks (lockKey s.id))).map fun s => s.id)) = true) := by
          intro hb
          rw [Bool.and_eq_true] at hb
          exact (hmemI.mp (of_decide_eq_true hb.2)) hnn
        have h2 : ¬ (x.status = SeatStatus.AVAILABLE ∧ locks (lockKey x.id) ≠ none) :=
          fun hp => hp.2 hnn
        rw [if_neg h1, if_neg h2]
      · have h1 : ((x.status == SeatStatus.AVAILABLE
            && decide (x.id ∈ ((seats.filter fun s => s.status == SeatStatus.AVAILABLE).filter
              fun s => View.truthy (locks (lockKey s.id))).map fun s => s.id)) = true) := by
          rw [Bool.and_eq_true]
          exact ⟨by simp [hav], decide_eq_true (hmemI.mpr hnn)⟩
        have h2 : x.status = SeatStatus.AVAILABLE ∧ locks (lockKey x.id) ≠ none := ⟨hav, hnn⟩
        rw [if_pos h1, if_pos h2]
    · have hfalse : (x.status == SeatStatus.AVAILABLE) = false := by
        simp [hav]
      simp [hfalse, hav]
  · exact step_no_locked

theorem session_view_roundtrip_witness :
    View.findOneSeats
        (fun k => if k = lockKey "s1" then some "u1" else none)
        [⟨"s1", "sess-1", "A", 1, .AVAILABLE⟩, ⟨"s2", "sess-1", "A", 2, .AVAILABLE⟩,
         ⟨"s3", "sess-1", "A", 3, .SOLD⟩]
      = [⟨"s1", "sess-1", "A", 1, .LOCKED⟩, ⟨"s2", "sess-1", "A", 2, .AVAILABLE⟩,
         ⟨"s3", "sess-1", "A", 3, .SOLD⟩] := by
  have h := session_view_roundtrip
    (fun k => if k = lockKey "s1" then some "u1" else none)
    [⟨"s1", "sess-1", "A", 1, .AVAILABLE⟩, ⟨"s2", "sess-1", "A", 2, .AVAILABLE⟩,
     ⟨"s3", "sess-1", "A", 3, .SOLD⟩]
    (by
      intro k v hkv
      by_cases hk : k = lockKey "s1"
      · subst hk
        simp only [if_pos rfl] at hkv
        cases hkv
        decide
      · simp [hk] at hkv)
  rw [h.1]
  rfl

end Cinema

namespace Cinema

/-- A status update keeps the id column. -/
theorem res_ids_map (l : List Reservation) (f : Reservation → Reservation)
    (hf : ∀ r, (f r).id = r.id) :
    (l.map f).map Reservation.id = l.map Reservation.id := by
  rw [List.map_map]
  exact List.map_congr_left fun x _ => hf x

theorem seat_ids_map (l : List Seat) (f : Seat → Seat)
    (hf : ∀ s, (f s).id = s.id) :
    (l.map f).map Seat.id = l.map Seat.id := by
  rw [List.map_map]
  exact List.map_congr_left fun x _ => hf x

/-- With unique primary keys, a predicate entailing a fixed id matches
at most one row. -/
theorem countP_le_one_of_pred_id (rid : String) :
    ∀ (l : List Reservation), (l.map Reservation.id).Nodup →
    ∀ (p : Reservation → Bool), (∀ x, p x = true → x.id = rid) →
    l.countP p ≤ 1 := by
  intro l
  induction l with
  | nil => intro _ p _; simp
  | cons a t ih =>
    intro hnd p hp
    simp only [List.map_cons, List.nodup_cons] at hnd
    rw [List.countP_cons]
    by_cases hpa : p a
    · have hzero : t.countP p = 0 := by
        rw [List.countP_eq_zero]
        intro x hx hpx
        exact hnd.1 ((hp a hpa ▸ hp x hpx) ▸ List.mem_map_of_mem Reservation.id hx)
      rw [hzero, if_pos hpa]
    · have hle := ih hnd.2 p hp
      rw [if_neg hpa]
      omega

theorem countP_map_le_add {α : Type} (l : List α) (f : α → α) (p : α → Bool) :
    (l.map f).countP p ≤ l.countP p + l.countP fun x => p (f x) && !(p x) := by
  induction l with
  | nil => simp
  | cons a t ih =>
    simp only [List.map_cons, List.countP_cons]
    by_cases h1 : p (f a)
    · by_cases h2 : p a
      · rw [if_pos h1, if_pos h2, if_neg (by simp [h2])]
        omega
      · rw [if_pos h1, if_neg h2, if_pos (by simp [h1, h2])]
        omega
    · rw [if_neg h1]
      by_cases h2 : p a
      · rw [if_pos h2, if_neg (by simp [h1])]
        omega
      · rw [if_neg h2, if_neg (by simp [h1])]
        omega

theorem countP_map_le {α : Type} (l : List α) (f : α → α) (p : α → Bool)
    (h : ∀ x ∈ l, p (f x) = true → p x = true) :
    (l.map f).countP p ≤ l.countP p := by
  rw [List.countP_map]
  exact List.countP_mono_left fun x hx => h x hx

/-- The row predicate counted by `confirmedFor`. -/
theorem confirmedFor_def (db : DB) (sid : String) :
    Sys.confirmedFor db sid
      = db.reservations.countP fun r => r.seatId = sid && r.status == .CONFIRMED := rfl

/-- A cancelling update (every changed row gets status CANCELLED,
others are untouched) never increases any seat's CONFIRMED count. -/
theorem confirmedFor_cancelling_le (db : DB) (sid : String)
    (f : Reservation → Reservation)
    (hf : ∀ r, f r = r ∨ (f r).status = .CANCELLED) :
    (⟨db.seats, db.reservations.map f⟩ : DB).reservations.countP
        (fun r => r.seatId = sid && r.status == .CONFIRMED)
      ≤ db.reservations.countP fun r => r.seatId = sid && r.status == .CONFIRMED := by
  apply countP_map_le
  intro x _ hx
  rcases hf x with h | h
  · rw [← h]; exact hx
  · exfalso
    rw [Bool.and_eq_true] at hx
    have := hx.2
    rw [h] at this
    cases this

end Cinema

namespace Cinema

/-- DBInv is preserved by any conditional cancel (`updateMany … SET
status = CANCELLED`), whatever its row filter. -/
theorem dbinv_cancel_map (db : DB) (f : Reservation → Reservation)
    (hf : ∀ r, f r = r ∨ f r = { r with status := .CANCELLED })
    (hInv : Sys.DBInv db) :
    Sys.DBInv ⟨db.seats, db.reservations.map f⟩ := by
  obtain ⟨hrn, hsn, hnl, hc⟩ := hInv
  have hfid : ∀ r, (f r).id = r.id := fun r => by rcases hf r with h | h <;> rw [h]
  have hfcanc : ∀ r, f r = r ∨ (f r).status = .CANCELLED := fun r => by
    rcases hf r with h | h
    · left; exact h
    · right; rw [h]
  refine ⟨?_, hsn, hnl, ?_⟩
  · rw [res_ids_map _ _ hfid]; exact hrn
  · intro sid
    have hle := confirmedFor_cancelling_le db sid f hfcanc
    exact ⟨le_trans hle (hc sid).1, fun h1 => (hc sid).2 (le_trans h1 hle)⟩

/-- DBInv is preserved by inserting fresh PENDING rows (the create
transaction). -/
theorem dbinv_append_pending (db : DB) (rows : List Reservation)
    (hpend : ∀ r ∈ rows, r.status = .PENDING)
    (hnodup : (rows.map Reservation.id).Nodup)
    (hfresh : ∀ r ∈ rows, r.id ∉ db.reservations.map Reservation.id)
    (hInv : Sys.DBInv db) :
    Sys.DBInv ⟨db.seats, db.reservations ++ rows⟩ := by
  obtain ⟨hrn, hsn, hnl, hc⟩ := hInv
  have hrowszero : ∀ sid, rows.countP
      (fun r => r.seatId = sid && r.status == .CONFIRMED) = 0 := by
    intro sid
    rw [List.countP_eq_zero]
    intro r hr hcontra
    rw [Bool.and_eq_true] at hcontra
    have := hcontra.2
    rw [hpend r hr] at this
    cases this
  have hcount : ∀ sid, Sys.confirmedFor (⟨db.seats, db.reservations ++ rows⟩ : DB) sid
      = Sys.confirmedFor db sid := by
    intro sid
    unfold Sys.confirmedFor
    simp only [List.countP_append, hrowszero, Nat.add_zero]
  refine ⟨?_, hsn, hnl, ?_⟩
  · rw [List.map_append]
    refine List.Nodup.append hrn hnodup ?_
    intro a ha hb
    rcases List.mem_map.mp hb with ⟨r, hr, hid⟩
    exact hfresh r hr (hid ▸ ha)
  · intro sid
    rw [hcount sid]
    exact hc sid

/-- DBInv is preserved by inserting fresh AVAILABLE seats (session
creation). -/
theorem dbinv_append_seats (db : DB) (newSeats : List Seat)
    (havail : ∀ s ∈ newSeats, s.status = .AVAILABLE)
    (hnodup : (newSeats.map Seat.id).Nodup)
    (hfresh : ∀ s ∈ newSeats, s.id ∉ db.seats.map Seat.id)
    (hInv : Sys.DBInv db) :
    Sys.DBInv ⟨db.seats ++ newSeats, db.reservations⟩ := by
  obtain ⟨hrn, hsn, hnl, hc⟩ := hInv
  refine ⟨hrn, ?_, ?_, ?_⟩
  · rw [List.map_append]
    refine List.Nodup.append hsn hnodup ?_
    intro a ha hb
    rcases List.mem_map.mp hb with ⟨s, hs, hid⟩
    exact hfresh s hs (hid ▸ ha)
  · intro s hs
    rcases List.mem_append.mp hs with hs | hs
    · exact hnl s hs
    · rw [havail s hs]; intro hcontra; cases hcontra
  · intro sid
    refine ⟨(hc sid).1, fun h1 => ?_⟩
    rcases (hc sid).2 h1 with ⟨s, hs, hid, hsold⟩
    exact ⟨s, List.mem_append_left _ hs, hid, hsold⟩


/-- The commit branch of the transaction in isolation. -/
theorem dbinv_commit (db : DB) (rid sid : String) (now : Int)
    (hInv : Sys.DBInv db)
    (hsid : ∀ row ∈ db.reservations, row.id = rid → row.seatId = sid)
    (hc2 : ¬ db.seats.countP (sellCond sid) = 0) :
    Sys.DBInv ⟨db.seats.map fun s => if sellCond sid s then { s with status := .SOLD } else s,
      db.reservations.map fun r =>
        if confirmCond rid now r then { r with status := .CONFIRMED } else r⟩ := by
  obtain ⟨hrn, hsn, hnl, hc⟩ := hInv
  have hseat : ∃ s ∈ db.seats, sellCond sid s = true := by
    rw [← List.countP_pos_iff]
    omega
  rcases hseat with ⟨sAv, hsAv, hcondAv⟩
  have hsAvId : sAv.id = sid ∧ sAv.status = .AVAILABLE := by
    unfold sellCond at hcondAv
    rw [Bool.and_eq_true] at hcondAv
    refine ⟨of_decide_eq_true hcondAv.1, ?_⟩
    have hb := hcondAv.2
    cases hst : sAv.status <;> rw [hst] at hb <;> first | rfl | cases hb
  have hnsold : ¬ Sys.seatSold db sid := by
    rintro ⟨s', hs', hid', hsold'⟩
    have heq : sAv = s' :=
      List.inj_on_of_nodup_map hsn hsAv hs' (by rw [hsAvId.1, hid'])
    rw [heq, hsold'] at hsAvId
    cases hsAvId.2
  have hzero : Sys.confirmedFor db sid = 0 := by
    by_contra hnz
    exact hnsold ((hc sid).2 (by omega))
  refine ⟨?_, ?_, ?_, ?_⟩
  · rw [res_ids_map _ _ fun r => by by_cases h : confirmCond rid now r <;> simp [h]]
    exact hrn
  · rw [seat_ids_map _ _ fun s => by by_cases h : sellCond sid s <;> simp [h]]
    exact hsn
  · intro s hs
    rcases List.mem_map.mp hs with ⟨s0, hs0, hmap⟩
    by_cases hcond : sellCond sid s0
    · rw [← hmap]; simp [hcond]
    · rw [← hmap]; simp only [if_neg hcond]; exact hnl s0 hs0
  · intro sid'
    unfold Sys.confirmedFor Sys.seatSold
    simp only
    by_cases hside : sid' = sid
    · subst hside
      constructor
      · have hadd := countP_map_le_add db.reservations
          (fun r => if confirmCond rid now r then { r with status := .CONFIRMED } else r)
          (fun r => r.seatId = sid' && r.status == .CONFIRMED)
        have hnew : db.reservations.countP (fun x =>
            ((if confirmCond rid now x then { x with status := .CONFIRMED } else x).seatId = sid'
              && (if confirmCond rid now x then { x with status := .CONFIRMED } else x).status == ReservationStatus.CONFIRMED)
            && !(x.seatId = sid' && x.status == ReservationStatus.CONFIRMED)) ≤ 1 := by
          refine countP_le_one_of_pred_id rid db.reservations hrn _ ?_
          intro x hx
          rw [Bool.and_eq_true] at hx
          by_cases hcond : confirmCond rid now x
          · unfold confirmCond at hcond
            rw [Bool.and_eq_true, Bool.and_eq_true] at hcond
            exact of_decide_eq_true hcond.1.1
          · exfalso
            rw [if_neg hcond] at hx
            have hx1 := hx.1
            have hx2 := hx.2
            rw [hx1] at hx2
            cases hx2
        have hold : db.reservations.countP
            (fun r => r.seatId = sid' && r.status == .CONFIRMED) = 0 := hzero
        omega
      · intro _
        refine ⟨{ sAv with status := .SOLD }, ?_, hsAvId.1, rfl⟩
        refine List.mem_map.mpr ⟨sAv, hsAv, ?_⟩
        rw [if_pos hcondAv]
    · have hsame : (db.reservations.map fun r =>
          if confirmCond rid now r then { r with status := .CONFIRMED } else r).countP
            (fun r => r.seatId = sid' && r.status == ReservationStatus.CONFIRMED)
          = db.reservations.countP
            (fun r => r.seatId = sid' && r.status == ReservationStatus.CONFIRMED) := by
        rw [List.countP_map]
        apply List.countP_congr
        intro x hx
        by_cases hcond : confirmCond rid now x
        · have hxid : x.id = rid := by
            unfold confirmCond at hcond
            rw [Bool.and_eq_true, Bool.and_eq_true] at hcond
            exact of_decide_eq_true hcond.1.1
          have hxseat : x.seatId = sid := hsid x hx hxid
          have hdec : (decide (sid = sid') : Bool) = false :=
            decide_eq_false fun h => hside h.symm
          simp [Function.comp, hcond, hxseat, hdec]
        · simp [Function.comp, hcond]
      rw [hsame]
      refine ⟨(hc sid').1, fun h1 => ?_⟩
      rcases (hc sid').2 h1 with ⟨s', hs', hid', hsold'⟩
      refine ⟨if sellCond sid s' then { s' with status := .SOLD } else s', ?_, ?_, ?_⟩
      · exact List.mem_map.mpr ⟨s', hs', rfl⟩
      · by_cases hcond : sellCond sid s'
        · rw [if_pos hcond]; exact hid'
        · rw [if_neg hcond]; exact hid'
      · by_cases hcond : sellCond sid s'
        · rw [if_pos hcond]
        · rw [if_neg hcond]; exact hsold'

/-- The heart: DBInv is preserved by the confirm transaction, provided
(FK-style, from the snapshot invariant) that the row named `rid` sits
on seat `sid`. -/
theorem dbinv_confirmTx (db : DB) (rid sid : String) (now : Int)
    (hInv : Sys.DBInv db)
    (hsid : ∀ row ∈ db.reservations, row.id = rid → row.seatId = sid) :
    Sys.DBInv (db.confirmTx rid sid now).1 := by
  unfold DB.confirmTx
  by_cases hc1 : (db.conditionalConfirm rid now).2 = 0
  · simp only [hc1, if_pos rfl]
    cases hfind : db.findReservation rid with
    | none => exact hInv
    | some latest =>
      by_cases h1 : latest.status = .CONFIRMED
      · simp only [h1, if_pos rfl]; exact hInv
      · by_cases h2 : latest.status = .CANCELLED
        · simp only [if_neg h1, h2, if_pos rfl]; exact hInv
        · simp only [if_neg h1, if_neg h2]; exact hInv
  · simp only [if_neg hc1]
    by_cases hc2 : ((db.conditionalConfirm rid now).1.conditionalSellSeat sid).2 = 0
    · simp only [hc2, if_pos rfl]; exact hInv
    · simp only [if_neg hc2]
      unfold DB.conditionalSellSeat DB.conditionalConfirm at hc2 ⊢
      simp only at hc2 ⊢
      exact dbinv_commit db rid sid now hInv hsid hc2

end Cinema

namespace Cinema

/-- The immutable columns of a remembered row survive a status update. -/
theorem echo_map (l : List Reservation) (f : Reservation → Reservation)
    (hf : ∀ r, (f r).id = r.id ∧ (f r).seatId = r.seatId ∧
      (f r).expiresAt = r.expiresAt ∧ (f r).userId = r.userId)
    (r0 : Reservation)
    (h : ∃ row ∈ l, row.id = r0.id ∧ row.seatId = r0.seatId ∧
      row.expiresAt = r0.expiresAt ∧ row.userId = r0.userId) :
    ∃ row ∈ l.map f, row.id = r0.id ∧ row.seatId = r0.seatId ∧
      row.expiresAt = r0.expiresAt ∧ row.userId = r0.userId := by
  rcases h with ⟨row, hm, h1, h2, h3, h4⟩
  exact ⟨f row, List.mem_map_of_mem f hm,
    by rw [(hf row).1, h1], by rw [(hf row).2.1, h2],
    by rw [(hf row).2.2.1, h3], by rw [(hf row).2.2.2, h4]⟩

theorem echo_confirmTx (db : DB) (rid sid : String) (now : Int)
    (r0 : Reservation)
    (h : ∃ row ∈ db.reservations, row.id = r0.id ∧ row.seatId = r0.seatId ∧
      row.expiresAt = r0.expiresAt ∧ row.userId = r0.userId) :
    ∃ row ∈ (db.confirmTx rid sid now).1.reservations,
      row.id = r0.id ∧ row.seatId = r0.seatId ∧
      row.expiresAt = r0.expiresAt ∧ row.userId = r0.userId := by
  unfold DB.confirmTx
  by_cases hc1 : (db.conditionalConfirm rid now).2 = 0
  · simp only [hc1, if_pos rfl]
    cases hfind : db.findReservation rid with
    | none => exact h
    | some latest =>
      by_cases h1 : latest.status = .CONFIRMED
      · simp only [h1, if_pos rfl]; exact h
      · by_cases h2 : latest.status = .CANCELLED
        · simp only [if_neg h1, h2, if_pos rfl]; exact h
        · simp only [if_neg h1, if_neg h2]; exact h
  · simp only [if_neg hc1]
    by_cases hc2 : ((db.conditionalConfirm rid now).1.conditionalSellSeat sid).2 = 0
    · simp only [hc2, if_pos rfl]; exact h
    · simp only [if_neg hc2]
      unfold DB.conditionalSellSeat DB.conditionalConfirm
      simp only
      refine echo_map _ _ ?_ r0 h
      intro r
      by_cases hcond : confirmCond rid now r <;> simp [hcond]

/-- Preservation of the full invariant by every step. -/
theorem inv_step (cfg cfg' : Sys.Config) (hstep : Sys.Step cfg cfg')
    (hInv : Sys.Inv cfg) : Sys.Inv cfg' := by
  obtain ⟨hdb, hsnap⟩ := hInv
  cases hstep with
  | spawn cfg rid now =>
    refine ⟨hdb, ?_⟩
    intro c hc r0 hr0
    rcases List.mem_cons.mp hc with rfl | hc'
    · cases hr0
    · exact hsnap c hc' r0 hr0
  | read db locks pre post c hpc =>
    refine ⟨hdb, ?_⟩
    intro c'' hc'' r0 hr0
    rcases List.mem_append.mp hc'' with hin | hin
    · exact hsnap c'' (List.mem_append_left _ hin) r0 hr0
    · rcases List.mem_cons.mp hin with rfl | hin'
      · simp only at hr0
        have hp := List.find?_some hr0
        have hmem := List.mem_of_find?_eq_some hr0
        refine ⟨of_decide_eq_true hp, r0, hmem, rfl, rfl, rfl, rfl⟩
      · exact hsnap c'' (List.mem_append_right _ (List.mem_cons_of_mem _ hin')) r0 hr0
  | classify db locks pre post c hpc =>
    refine ⟨hdb, ?_⟩
    intro c'' hc'' r0 hr0
    rcases List.mem_append.mp hc'' with hin | hin
    · exact hsnap c'' (List.mem_append_left _ hin) r0 hr0
    · rcases List.mem_cons.mp hin with rfl | hin'
      · exact hsnap c (List.mem_append_right _ (List.mem_cons_self _ _)) r0 hr0
      · exact hsnap c'' (List.mem_append_right _ (List.mem_cons_of_mem _ hin')) r0 hr0
  | flip db locks pre post c hpc =>
    have hf : ∀ r : Reservation, (if r.id = c.rid then { r with status := .CANCELLED } else r) = r
        ∨ (if r.id = c.rid then { r with status := .CANCELLED } else r)
            = { r with status := ReservationStatus.CANCELLED } := by
      intro r
      by_cases h : r.id = c.rid
      · right; rw [if_pos h]
      · left; rw [if_neg h]
    refine ⟨dbinv_cancel_map db _ hf hdb, ?_⟩
    intro c'' hc'' r0 hr0
    have hfld : ∀ r : Reservation,
        ((if r.id = c.rid then { r with status := ReservationStatus.CANCELLED } else r)).id = r.id ∧
        ((if r.id = c.rid then { r with status := ReservationStatus.CANCELLED } else r)).seatId = r.seatId ∧
        ((if r.id = c.rid then { r with status := ReservationStatus.CANCELLED } else r)).expiresAt = r.expiresAt ∧
        ((if r.id = c.rid then { r with status := ReservationStatus.CANCELLED } else r)).userId = r.userId := by
      intro r
      by_cases h : r.id = c.rid <;> simp [h]
    rcases List.mem_append.mp hc'' with hin | hin
    · obtain ⟨hid, hecho⟩ := hsnap c'' (List.mem_append_left _ hin) r0 hr0
      exact ⟨hid, echo_map _ _ hfld r0 hecho⟩
    · rcases List.mem_cons.mp hin with rfl | hin'
      · obtain ⟨hid, hecho⟩ :=
          hsnap c (List.mem_append_right _ (List.mem_cons_self _ _)) r0 hr0
        exact ⟨hid, echo_map _ _ hfld r0 hecho⟩
      · obtain ⟨hid, hecho⟩ :=
          hsnap c'' (List.mem_append_right _ (List.mem_cons_of_mem _ hin')) r0 hr0
        exact ⟨hid, echo_map _ _ hfld r0 hecho⟩
  | tx db locks pre post c r0 hpc hsnapc =>
    have hcmem : c ∈ pre ++ c :: post :=
      List.mem_append_right _ (List.mem_cons_self _ _)
    obtain ⟨hr0id, row0, hm0, hid0, hseat0, _, _⟩ := hsnap c hcmem r0 hsnapc
    have hsid : ∀ row ∈ db.reservations, row.id = c.rid → row.seatId = r0.seatId := by
      intro row hrow hid
      have heq : row = row0 := by
        apply List.inj_on_of_nodup_map hdb.1 hrow hm0
        rw [hid, hid0, hr0id]
      rw [heq, hseat0]
    refine ⟨dbinv_confirmTx db c.rid r0.seatId c.now hdb hsid, ?_⟩
    intro c'' hc'' r1 hr1
    rcases List.mem_append.mp hc'' with hin | hin
    · obtain ⟨hid, hecho⟩ := hsnap c'' (List.mem_append_left _ hin) r1 hr1
      exact ⟨hid, echo_confirmTx db c.rid r0.seatId c.now r1 hecho⟩
    · rcases List.mem_cons.mp hin with rfl | hin'
      · obtain ⟨hid, hecho⟩ := hsnap c hcmem r1 hr1
        exact ⟨hid, echo_confirmTx db c.rid r0.seatId c.now r1 hecho⟩
      · obtain ⟨hid, hecho⟩ :=
          hsnap c'' (List.mem_append_right _ (List.mem_cons_of_mem _ hin')) r1 hr1
        exact ⟨hid, echo_confirmTx db c.rid r0.seatId c.now r1 hecho⟩
  | finish db locks pre post c r0 hpc hsnapc =>
    refine ⟨hdb, ?_⟩
    intro c'' hc'' r1 hr1
    rcases List.mem_append.mp hc'' with hin | hin
    · exact hsnap c'' (List.mem_append_left _ hin) r1 hr1
    · rcases List.mem_cons.mp hin with rfl | hin'
      · exact hsnap c (List.mem_append_right _ (List.mem_cons_self _ _)) r1 hr1
      · exact hsnap c'' (List.mem_append_right _ (List.mem_cons_of_mem _ hin')) r1 hr1
  | createCommit cfg rows hpend hnodup hfresh =>
    refine ⟨dbinv_append_pending cfg.db rows hpend hnodup hfresh hdb, ?_⟩
    intro c hc r0 hr0
    obtain ⟨hid, row, hm, hflds⟩ := hsnap c hc r0 hr0
    exact ⟨hid, row, List.mem_append_left _ hm, hflds⟩
  | cleanupItem cfg rid now =>
    have hf : ∀ r : Reservation,
        (if cancelItemCond rid now r then { r with status := .CANCELLED } else r) = r
        ∨ (if cancelItemCond rid now r then { r with status := .CANCELLED } else r)
            = { r with status := ReservationStatus.CANCELLED } := by
      intro r
      by_cases h : cancelItemCond rid now r
      · right; rw [if_pos h]
      · left; rw [if_neg h]
    refine ⟨dbinv_cancel_map cfg.db _ hf hdb, ?_⟩
    intro c hc r0 hr0
    obtain ⟨hid, hecho⟩ := hsnap c hc r0 hr0
    refine ⟨hid, echo_map _ _ ?_ r0 hecho⟩
    intro r
    by_cases h : cancelItemCond rid now r <;> simp [h]
  | cleanupBatch cfg ids =>
    have hf : ∀ r : Reservation,
        (if cancelBatchCond ids r then { r with status := .CANCELLED } else r) = r
        ∨ (if cancelBatchCond ids r then { r with status := .CANCELLED } else r)
            = { r with status := ReservationStatus.CANCELLED } := by
      intro r
      by_cases h : cancelBatchCond ids r
      · right; rw [if_pos h]
      · left; rw [if_neg h]
    refine ⟨dbinv_cancel_map cfg.db _ hf hdb, ?_⟩
    intro c hc r0 hr0
    obtain ⟨hid, hecho⟩ := hsnap c hc r0 hr0
    refine ⟨hid, echo_map _ _ ?_ r0 hecho⟩
    intro r
    by_cases h : cancelBatchCond ids r <;> simp [h]
  | sessionCreate cfg newSeats havail hnodup hfresh =>
    exact ⟨dbinv_append_seats cfg.db newSeats havail hnodup hfresh hdb, hsnap⟩
  | lockWrite cfg locks' =>
    exact ⟨hdb, hsnap⟩

theorem inv_init : Sys.Inv Sys.init := by
  refine ⟨⟨?_, ?_, ?_, ?_⟩, ?_⟩
  · simp [Sys.init]
  · simp [Sys.init]
  · intro s hs; cases hs
  · intro sid
    refine ⟨?_, ?_⟩
    · simp [Sys.confirmedFor, Sys.init]
    · intro h
      simp [Sys.confirmedFor, Sys.init] at h
  · intro c hc; cases hc

theorem reachable_inv (cfg : Sys.Config) (h : Sys.Reachable Sys.init cfg) :
    Sys.Inv cfg := by
  induction h with
  | refl => exact inv_init
  | tail hsteps hstep ih => exact inv_step _ _ hstep ih

/-- C1: in every configuration reachable by any interleaving of
`create`, `confirmPayment` and the cleanup job (and session creation),
every seat has at most one CONFIRMED reservation — the conditional
AVAILABLE-to-SOLD seat update inside the confirm transaction admits at
most one committed confirmation per seat. -/
theorem no_double_sell (cfg : Sys.Config) (h : Sys.Reachable Sys.init cfg)
    (sid : String) : Sys.confirmedFor cfg.db sid ≤ 1 :=
  ((reachable_inv cfg h).1.2.2.2 sid).1

end Cinema

namespace Cinema

/-- Configuration reached by: create session seat `s1`; create PENDING
reservation `r1` expiring at 10; start a confirm call A at time 20
(sees the expired snapshot, heads for the unconditional cancel) and a
confirm call B at time 5 (passes the checks and commits its
transaction: `r1` CONFIRMED, `s1` SOLD) — call A is still parked before
its unconditional update. -/
def c2cfgMid : Sys.Config :=
  ⟨⟨[⟨"s1", "sess-1", "A", 1, .SOLD⟩], [⟨"r1", "u1", "s1", .CONFIRMED, 10⟩]⟩,
   fun _ => none,
   [⟨"r1", 5, some ⟨"r1", "u1", "s1", .PENDING, 10⟩, .finishing⟩,
    ⟨"r1", 20, some ⟨"r1", "u1", "s1", .PENDING, 10⟩, .flip⟩]⟩

/-- The configuration after call A's unconditional expiry cancel ran:
the CONFIRMED reservation has been flipped to CANCELLED. -/
def c2cfgEnd : Sys.Config :=
  ⟨⟨[⟨"s1", "sess-1", "A", 1, .SOLD⟩], [⟨"r1", "u1", "s1", .CANCELLED, 10⟩]⟩,
   fun _ => none,
   [⟨"r1", 5, some ⟨"r1", "u1", "s1", .PENDING, 10⟩, .finishing⟩,
    ⟨"r1", 20, some ⟨"r1", "u1", "s1", .PENDING, 10⟩, .done⟩]⟩

/-- C2 counterexample: a reachable interleaving of two `confirmPayment`
calls in which a step of `confirmPayment` — the expiry branch's
unconditional `reservation.update({ status: CANCELLED })`, guarded only
by a stale read — moves a reservation whose current status is CONFIRMED
to CANCELLED.  CONFIRMED is not terminal. -/
theorem confirmed_not_terminal_counterexample :
    Sys.Reachable Sys.init c2cfgMid ∧
    Sys.Step c2cfgMid c2cfgEnd ∧
    c2cfgMid.db.resStatus "r1" = some .CONFIRMED ∧
    c2cfgEnd.db.resStatus "r1" = some .CANCELLED := by
  refine ⟨?_, ?_, rfl, rfl⟩
  · refine Relation.ReflTransGen.head
      (Sys.Step.sessionCreate Sys.init [⟨"s1", "sess-1", "A", 1, .AVAILABLE⟩]
        (by decide) (by decide) (by decide)) ?_
    refine Relation.ReflTransGen.head
      (Sys.Step.createCommit _ [⟨"r1", "u1", "s1", .PENDING, 10⟩]
        (by decide) (by decide) (by decide)) ?_
    refine Relation.ReflTransGen.head (Sys.Step.spawn _ "r1" 20) ?_
    refine Relation.ReflTransGen.head (Sys.Step.spawn _ "r1" 5) ?_
    refine Relation.ReflTransGen.head
      (Sys.Step.read _ _ [⟨"r1", 5, none, .start⟩] [] ⟨"r1", 20, none, .start⟩ rfl) ?_
    refine Relation.ReflTransGen.head
      (Sys.Step.classify _ _ [⟨"r1", 5, none, .start⟩] [] _ rfl) ?_
    refine Relation.ReflTransGen.head
      (Sys.Step.read _ _ [] [_] ⟨"r1", 5, none, .start⟩ rfl) ?_
    refine Relation.ReflTransGen.head
      (Sys.Step.classify _ _ [] [_] _ rfl) ?_
    refine Relation.ReflTransGen.head
      (Sys.Step.tx _ _ [] [_] _ ⟨"r1", "u1", "s1", .PENDING, 10⟩ rfl rfl) ?_
    exact Relation.ReflTransGen.refl
  · exact Sys.Step.flip c2cfgMid.db c2cfgMid.locks
      [⟨"r1", 5, some ⟨"r1", "u1", "s1", .PENDING, 10⟩, .finishing⟩] []
      ⟨"r1", 20, some ⟨"r1", "u1", "s1", .PENDING, 10⟩, .flip⟩ rfl

theorem no_double_sell_witness :
    Sys.Reachable Sys.init c2cfgMid ∧ Sys.confirmedFor c2cfgMid.db "s1" ≤ 1 := by
  have hreach : Sys.Reachable Sys.init c2cfgMid := by
    refine Relation.ReflTransGen.head
      (Sys.Step.sessionCreate Sys.init [⟨"s1", "sess-1", "A", 1, .AVAILABLE⟩]
        (by decide) (by decide) (by decide)) ?_
    refine Relation.ReflTransGen.head
      (Sys.Step.createCommit _ [⟨"r1", "u1", "s1", .PENDING, 10⟩]
        (by decide) (by decide) (by decide)) ?_
    refine Relation.ReflTransGen.head (Sys.Step.spawn _ "r1" 20) ?_
    refine Relation.ReflTransGen.head (Sys.Step.spawn _ "r1" 5) ?_
    refine Relation.ReflTransGen.head
      (Sys.Step.read _ _ [⟨"r1", 5, none, .start⟩] [] ⟨"r1", 20, none, .start⟩ rfl) ?_
    refine Relation.ReflTransGen.head
      (Sys.Step.classify _ _ [⟨"r1", 5, none, .start⟩] [] _ rfl) ?_
    refine Relation.ReflTransGen.head
      (Sys.Step.read _ _ [] [_] ⟨"r1", 5, none, .start⟩ rfl) ?_
    refine Relation.ReflTransGen.head
      (Sys.Step.classify _ _ [] [_] _ rfl) ?_
    refine Relation.ReflTransGen.head
      (Sys.Step.tx _ _ [] [_] _ ⟨"r1", "u1", "s1", .PENDING, 10⟩ rfl rfl) ?_
    exact Relation.ReflTransGen.refl
  exact ⟨hreach, no_double_sell c2cfgMid hreach "s1"⟩

end Cinema

namespace Cinema

theorem find?_map_id_pres (l : List Reservation) (f : Reservation → Reservation)
    (hf : ∀ r, (f r).id = r.id) (rid : String) :
    (l.map f).find? (fun r => r.id = rid) = (l.find? fun r => r.id = rid).map f := by
  induction l with
  | nil => rfl
  | cons a t ih =>
    simp only [List.map_cons]
    by_cases h : a.id = rid
    · rw [List.find?_cons_of_pos _ (by simp [hf a, h]),
        List.find?_cons_of_pos _ (by simp [h])]
      rfl
    · rw [List.find?_cons_of_neg _ (by simp [hf a, h]),
        List.find?_cons_of_neg _ (by simp [h])]
      exact ih

/-- Status after a pointwise status update, phrased on resStatus. -/
theorem resStatus_map (seats : List Seat) (l : List Reservation)
    (f : Reservation → Reservation) (hf : ∀ r, (f r).id = r.id) (rid : String) :
    DB.resStatus ⟨seats, l.map f⟩ rid
      = ((l.find? fun r => r.id = rid).map f).map Reservation.status := by
  unfold DB.resStatus DB.findReservation
  simp only
  rw [find?_map_id_pres l f hf rid]

theorem resStatus_eq_find (db : DB) (rid : String) :
    db.resStatus rid = (db.reservations.find? fun r => r.id = rid).map Reservation.status :=
  rfl

end Cinema

namespace Cinema

theorem find?_append_left {α : Type} (l₁ l₂ : List α) (p : α → Bool) (a : α)
    (h : l₁.find? p = some a) : (l₁ ++ l₂).find? p = some a := by
  induction l₁ with
  | nil => cases h
  | cons x t ih =>
    by_cases hx : p x
    · rw [List.find?_cons_of_pos _ hx] at h
      rw [List.cons_append, List.find?_cons_of_pos _ hx]
      exact h
    · rw [List.find?_cons_of_neg _ hx] at h
      rw [List.cons_append, List.find?_cons_of_neg _ hx]
      exact ih h

theorem find?_append_right {α : Type} (l₁ l₂ : List α) (p : α → Bool)
    (h : l₁.find? p = none) : (l₁ ++ l₂).find? p = l₂.find? p := by
  induction l₁ with
  | nil => rfl
  | cons x t ih =>
    by_cases hx : p x
    · rw [List.find?_cons_of_pos _ hx] at h
      cases h
    · rw [List.find?_cons_of_neg _ hx] at h
      rw [List.cons_append, List.find?_cons_of_neg _ hx]
      exact ih h

/-- The confirm transaction either rolls back or commits both updates. -/
theorem confirmTx_cases (db : DB) (rid sid : String) (now : Int) :
    (db.confirmTx rid sid now).1 = db ∨
    (db.confirmTx rid sid now).1
      = ⟨db.seats.map fun s => if sellCond sid s then { s with status := .SOLD } else s,
         db.reservations.map fun r =>
           if confirmCond rid now r then { r with status := .CONFIRMED } else r⟩ := by
  unfold DB.confirmTx
  by_cases hc1 : (db.conditionalConfirm rid now).2 = 0
  · simp only [hc1, if_pos rfl]
    cases hfind : db.findReservation rid with
    | none => left; rfl
    | some latest =>
      by_cases h1 : latest.status = .CONFIRMED
      · simp only [h1, if_pos rfl]; left; rfl
      · by_cases h2 : latest.status = .CANCELLED
        · simp only [if_neg h1, h2, if_pos rfl]; left; rfl
        · simp only [if_neg h1, if_neg h2]; left; rfl
  · simp only [if_neg hc1]
    by_cases hc2 : ((db.conditionalConfirm rid now).1.conditionalSellSeat sid).2 = 0
    · simp only [hc2, if_pos rfl]; left; rfl
    · simp only [if_neg hc2]
      right
      unfold DB.conditionalSellSeat DB.conditionalConfirm
      rfl

/-- C2 (amended): over every step of the interleaved system, CANCELLED
is terminal; a reservation becomes CONFIRMED only from PENDING, by an
in-flight confirm call's transaction whose `now` does not exceed the
row's `expiresAt`; but CONFIRMED is terminal only up to the expiry
branch of `confirmPayment`: its unconditional cancel (a step taken by a
call whose stale snapshot looked expired-PENDING) may move a CONFIRMED
reservation to CANCELLED — and nothing else ever changes a CONFIRMED
row. -/
theorem reservation_status_transitions (cfg cfg' : Sys.Config) (rid : String)
    (hstep : Sys.Step cfg cfg') :
    (cfg.db.resStatus rid = some .CANCELLED →
      cfg'.db.resStatus rid = some .CANCELLED) ∧
    (cfg.db.resStatus rid = some .CONFIRMED →
      cfg'.db.resStatus rid = some .CONFIRMED ∨
      (cfg'.db.resStatus rid = some .CANCELLED ∧
        ∃ c ∈ cfg.calls, c.pc = .flip ∧ c.rid = rid)) ∧
    (cfg.db.resStatus rid ≠ some .CONFIRMED →
      cfg'.db.resStatus rid = some .CONFIRMED →
      ∃ r ∈ cfg.db.reservations, r.id = rid ∧ r.status = .PENDING ∧
        ∃ c ∈ cfg.calls, c.pc = .tx ∧ c.rid = rid ∧ c.now ≤ r.expiresAt) := by
  have triv : ∀ (d : Sys.Config) (d' : Sys.Config),
      d'.db.resStatus rid = d.db.resStatus rid →
      (d.db.resStatus rid = some .CANCELLED →
        d'.db.resStatus rid = some .CANCELLED) ∧
      (d.db.resStatus rid = some .CONFIRMED →
        d'.db.resStatus rid = some .CONFIRMED ∨
        (d'.db.resStatus rid = some .CANCELLED ∧
          ∃ c ∈ d.calls, c.pc = .flip ∧ c.rid = rid)) ∧
      (d.db.resStatus rid ≠ some .CONFIRMED →
        d'.db.resStatus rid = some .CONFIRMED →
        ∃ r ∈ d.db.reservations, r.id = rid ∧ r.status = .PENDING ∧
          ∃ c ∈ d.calls, c.pc = .tx ∧ c.rid = rid ∧ c.now ≤ r.expiresAt) := by
    intro d d' heq
    refine ⟨fun h => by rw [heq, h], fun h => Or.inl (by rw [heq, h]),
      fun hne hpost => absurd (heq ▸ hpost) hne⟩
  cases hstep with
  | spawn cfg rid' now => exact triv _ _ rfl
  | read db locks pre post c hpc => exact triv _ _ rfl
  | classify db locks pre post c hpc => exact triv _ _ rfl
  | finish db locks pre post c r0 hpc hsnap => exact triv _ _ rfl
  | lockWrite cfg locks' => exact triv _ _ rfl
  | sessionCreate cfg newSeats havail hnodup hfresh => exact triv _ _ rfl
  | flip db locks pre post c hpc =>
    have hcmem : c ∈ pre ++ c :: post :=
      List.mem_append_right _ (List.mem_cons_self _ _)
    have hfid : ∀ r : Reservation,
        ((if r.id = c.rid then { r with status := ReservationStatus.CANCELLED } else r) : Reservation).id = r.id := by
      intro r; by_cases h : r.id = c.rid <;> simp [h]
    simp only [Sys.Config.mk.injEq]
    rw [resStatus_eq_find, show (DB.cancelUnconditional db c.rid) = ⟨db.seats,
      db.reservations.map fun r => if r.id = c.rid then { r with status := .CANCELLED } else r⟩ from rfl,
      resStatus_map _ _ _ hfid rid]
    cases hfind : db.reservations.find? (fun r => r.id = rid) with
    | none =>
      refine ⟨fun h => (by cases h), fun h => (by cases h), fun hne hpost => (by cases hpost)⟩
    | some a =>
      have haid0 := List.find?_some hfind
      have haid : a.id = rid := of_decide_eq_true haid0
      simp only [Option.map_some']
      by_cases hid : a.id = c.rid
      · simp only [if_pos hid]
        refine ⟨fun _ => trivial, fun h => Or.inr ⟨trivial, c, hcmem, hpc, by rw [← hid, haid]⟩,
          fun hne hpost => ?_⟩
        simp only [Option.some_inj] at hpost
        cases hpost
      · simp only [if_neg hid]
        exact ⟨fun h => h, fun h => Or.inl h, fun hne hpost => absurd hpost hne⟩
  | tx db locks pre post c r0 hpc hsnap =>
    have hcmem : c ∈ pre ++ c :: post :=
      List.mem_append_right _ (List.mem_cons_self _ _)
    rcases confirmTx_cases db c.rid r0.seatId c.now with hcase | hcase
    · exact triv _ _ (by rw [show (Sys.Config.mk (db.confirmTx c.rid r0.seatId c.now).1 locks _).db
        = (db.confirmTx c.rid r0.seatId c.now).1 from rfl, hcase])
    · have hfid : ∀ r : Reservation,
          ((if confirmCond c.rid c.now r then { r with status := ReservationStatus.CONFIRMED } else r) : Reservation).id = r.id := by
        intro r; by_cases h : confirmCond c.rid c.now r <;> simp [h]
      rw [resStatus_eq_find, show (Sys.Config.mk (db.confirmTx c.rid r0.seatId c.now).1 locks
          (pre ++ { c with pc := match (db.confirmTx c.rid r0.seatId c.now).2 with
            | .committed => Sys.CPc.finishing
            | .alreadyConfirmed => Sys.CPc.finishing
            | _ => Sys.CPc.done } :: post)).db
        = (db.confirmTx c.rid r0.seatId c.now).1 from rfl, hcase,
        resStatus_map _ _ _ hfid rid]
      cases hfind : db.reservations.find? (fun r => r.id = rid) with
      | none =>
        refine ⟨fun h => (by cases h), fun h => (by cases h), fun hne hpost => (by cases hpost)⟩
      | some a =>
        have haid0 := List.find?_some hfind
        have haid : a.id = rid := of_decide_eq_true haid0
        have hamem : a ∈ db.reservations := List.mem_of_find?_eq_some hfind
        simp only [Option.map_some']
        by_cases hcond : confirmCond c.rid c.now a
        · have hdecomp : a.id = c.rid ∧ a.status = .PENDING ∧ c.now ≤ a.expiresAt := by
            unfold confirmCond at hcond
            rw [Bool.and_eq_true, Bool.and_eq_true] at hcond
            refine ⟨of_decide_eq_true hcond.1.1, ?_, of_decide_eq_true hcond.2⟩
            have hb := hcond.1.2
            cases hst : a.status <;> rw [hst] at hb <;> first | rfl | cases hb
          simp only [if_pos hcond]
          refine ⟨fun h => ?_, fun h => ?_, fun hne hpost => ?_⟩
          · simp only [Option.some_inj] at h
            rw [hdecomp.2.1] at h
            cases h
          · simp only [Option.some_inj] at h
            rw [hdecomp.2.1] at h
            cases h
          · exact ⟨a, hamem, haid, hdecomp.2.1,
              c, hcmem, hpc, by rw [← hdecomp.1, haid], hdecomp.2.2⟩
        · simp only [if_neg hcond]
          exact ⟨fun h => h, fun h => Or.inl h, fun hne hpost => absurd hpost hne⟩
  | createCommit cfg rows hpend hnodup hfresh =>
    rw [resStatus_eq_find, show (Sys.Config.mk ⟨cfg.db.seats, cfg.db.reservations ++ rows⟩
        cfg.locks cfg.calls).db.resStatus rid
      = ((cfg.db.reservations ++ rows).find? (fun r => r.id = rid)).map Reservation.status from rfl]
    cases hfind : cfg.db.reservations.find? (fun r => r.id = rid) with
    | some a =>
      rw [find?_append_left _ rows _ a hfind]
      exact ⟨fun h => h, fun h => Or.inl h, fun hne hpost => absurd hpost hne⟩
    | none =>
      rw [find?_append_right _ rows _ hfind]
      refine ⟨fun h => (by cases h), fun h => (by cases h), fun hne hpost => ?_⟩
      cases hfind2 : rows.find? (fun r => r.id = rid) with
      | none => rw [hfind2] at hpost; cases hpost
      | some row =>
        rw [hfind2] at hpost
        simp only [Option.map_some', Option.some_inj] at hpost
        have := hpend row (List.mem_of_find?_eq_some hfind2)
        rw [this] at hpost
        cases hpost
  | cleanupItem cfg rid' now =>
    have hfid : ∀ r : Reservation,
        ((if cancelItemCond rid' now r then { r with status := ReservationStatus.CANCELLED } else r) : Reservation).id = r.id := by
      intro r; by_cases h : cancelItemCond rid' now r <;> simp [h]
    rw [resStatus_eq_find, show (Sys.Config.mk (cfg.db.cancelExpiredItem rid' now).1
        cfg.locks cfg.calls).db
      = ⟨cfg.db.seats, cfg.db.reservations.map fun r =>
          if cancelItemCond rid' now r then { r with status := .CANCELLED } else r⟩ from rfl,
      resStatus_map _ _ _ hfid rid]
    cases hfind : cfg.db.reservations.find? (fun r => r.id = rid) with
    | none =>
      refine ⟨fun h => (by cases h), fun h => (by cases h), fun hne hpost => (by cases hpost)⟩
    | some a =>
      simp only [Option.map_some']
      by_cases hcond : cancelItemCond rid' now a
      · simp only [if_pos hcond]
        refine ⟨fun _ => trivial, fun h => ?_, fun hne hpost => ?_⟩
        · exfalso
          unfold cancelItemCond at hcond
          rw [Bool.and_eq_true, Bool.and_eq_true] at hcond
          have hb := hcond.1.2
          simp only [Option.some_inj] at h
          rw [h] at hb
          cases hb
        · simp only [Option.some_inj] at hpost
          cases hpost
      · simp only [if_neg hcond]
        exact ⟨fun h => h, fun h => Or.inl h, fun hne hpost => absurd hpost hne⟩
  | cleanupBatch cfg ids =>
    have hfid : ∀ r : Reservation,
        ((if cancelBatchCond ids r then { r with status := ReservationStatus.CANCELLED } else r) : Reservation).id = r.id := by
      intro r; by_cases h : cancelBatchCond ids r <;> simp [h]
    rw [resStatus_eq_find, show (Sys.Config.mk (cfg.db.cancelBatch ids).1
        cfg.locks cfg.calls).db
      = ⟨cfg.db.seats, cfg.db.reservations.map fun r =>
          if cancelBatchCond ids r then { r with status := .CANCELLED } else r⟩ from rfl,
      resStatus_map _ _ _ hfid rid]
    cases hfind : cfg.db.reservations.find? (fun r => r.id = rid) with
    | none =>
      refine ⟨fun h => (by cases h), fun h => (by cases h), fun hne hpost => (by cases hpost)⟩
    | some a =>
      simp only [Option.map_some']
      by_cases hcond : cancelBatchCond ids a
      · simp only [if_pos hcond]
        refine ⟨fun _ => trivial, fun h => ?_, fun hne hpost => ?_⟩
        · exfalso
          unfold cancelBatchCond at hcond
          rw [Bool.and_eq_true] at hcond
          have hb := hcond.2
          simp only [Option.some_inj] at h
          rw [h] at hb
          cases hb
        · simp only [Option.some_inj] at hpost
          cases hpost
      · simp only [if_neg hcond]
        exact ⟨fun h => h, fun h => Or.inl h, fun hne hpost => absurd hpost hne⟩

end Cinema

namespace Cinema

theorem reservation_status_transitions_witness :
    c2cfgMid.db.resStatus "r1" = some ReservationStatus.CONFIRMED ∧
    (c2cfgEnd.db.resStatus "r1" = some ReservationStatus.CONFIRMED ∨
      (c2cfgEnd.db.resStatus "r1" = some ReservationStatus.CANCELLED ∧
        ∃ c ∈ c2cfgMid.calls, c.pc = Sys.CPc.flip ∧ c.rid = "r1")) := by
  have hstep : Sys.Step c2cfgMid c2cfgEnd :=
    Sys.Step.flip c2cfgMid.db c2cfgMid.locks
      [⟨"r1", 5, some ⟨"r1", "u1", "s1", .PENDING, 10⟩, .finishing⟩] []
      ⟨"r1", 20, some ⟨"r1", "u1", "s1", .PENDING, 10⟩, .flip⟩ rfl
  exact ⟨rfl, (reservation_status_transitions c2cfgMid c2cfgEnd "r1" hstep).2.1 rfl⟩

end Cinema

namespace Cinema.Idem

theorem not_active_of_pc (c : ICall) (p : IPc) (h : c.pc = p)
    (hw : p ≠ IPc.work) (hs : p ≠ IPc.storeResp) (hc : p ≠ IPc.catchDel) :
    ¬ active c := by
  intro ha
  unfold active at ha
  rcases ha with h2 | h2 | h2
  · exact hw (h.symm.trans h2)
  · exact hs (h.symm.trans h2)
  · exact hc (h.symm.trans h2)

theorem jinv_swap (m : Option Create.Body) (a b : ICall)
    (h : JInv ⟨m, a, b⟩) : JInv ⟨m, b, a⟩ := by
  unfold JInv at h ⊢
  obtain ⟨j1, j2, j3, j4, j5, j6, j7, j8, j9⟩ := h
  exact ⟨j2, j1, j4, j3, j6, j5, fun hr => ⟨(j7 hr).2, (j7 hr).1⟩, j9, j8⟩

theorem jinv_left (m m' : Option Create.Body) (a a' b : ICall)
    (hj : JInv ⟨m, a, b⟩) (hs : CallStep m a m' a') : JInv ⟨m', a', b⟩ := by
  unfold JInv at hj ⊢
  obtain ⟨j1, j2, j3, j4, j5, j6, j7, j8, j9⟩ := hj
  cases hs with
  | initHit r hm hpc =>
    subst hm
    refine ⟨?_, ?_, fun _ => Or.inr rfl, j4, ?_, fun h => j6 h, ?_, ?_, j9⟩
    · intro h
      exact absurd h (not_active_of_pc _ IPc.done rfl (by decide) (by decide) (by decide))
    · intro h2
      exact absurd (j2 h2).1 (by simp)
    · rintro ⟨-, hrows⟩
      rcases j3 hrows with h | h <;> rw [hpc] at h <;> cases h
    · intro hr
      exact ⟨not_active_of_pc _ IPc.done rfl (by decide) (by decide) (by decide), (j7 hr).2⟩
    · intro r2 h
      simp only [Option.some.injEq, Except.ok.injEq, Create.Body.response.injEq] at h
      rw [h]
  | initProcessing hm hpc =>
    subst hm
    refine ⟨?_, ?_, ?_, j4, ?_, fun h => j6 h, ?_, j8, j9⟩
    · intro h
      exact absurd h (not_active_of_pc _ IPc.polling rfl (by decide) (by decide) (by decide))
    · intro h2
      exact ⟨(j2 h2).1,
        not_active_of_pc _ IPc.polling rfl (by decide) (by decide) (by decide)⟩
    · intro hrows
      rcases j3 hrows with h | h <;> rw [hpc] at h <;> cases h
    · rintro ⟨-, hrows⟩
      rcases j3 hrows with h | h <;> rw [hpc] at h <;> cases h
    · intro hr
      exact ⟨not_active_of_pc _ IPc.polling rfl (by decide) (by decide) (by decide), (j7 hr).2⟩
  | initMiss hm hpc =>
    subst hm
    refine ⟨?_, ?_, ?_, j4, ?_, fun h => j6 h, ?_, j8, j9⟩
    · intro h
      exact absurd h (not_active_of_pc _ IPc.tryClaim rfl (by decide) (by decide) (by decide))
    · intro h2
      exact ⟨(j2 h2).1,
        not_active_of_pc _ IPc.tryClaim rfl (by decide) (by decide) (by decide)⟩
    · intro hrows
      rcases j3 hrows with h | h <;> rw [hpc] at h <;> cases h
    · rintro ⟨-, hrows⟩
      rcases j3 hrows with h | h <;> rw [hpc] at h <;> cases h
    · intro hr
      exact ⟨not_active_of_pc _ IPc.tryClaim rfl (by decide) (by decide) (by decide), (j7 hr).2⟩
  | pollFinal r hm hpc hn =>
    subst hm
    refine ⟨?_, ?_, fun _ => Or.inr rfl, j4, ?_, fun h => j6 h, ?_, ?_, j9⟩
    · intro h
      exact absurd h (not_active_of_pc _ IPc.done rfl (by decide) (by decide) (by decide))
    · intro h2
      exact absurd (j2 h2).1 (by simp)
    · rintro ⟨-, hrows⟩
      rcases j3 hrows with h | h <;> rw [hpc] at h <;> cases h
    · intro hr
      exact ⟨not_active_of_pc _ IPc.done rfl (by decide) (by decide) (by decide), (j7 hr).2⟩
    · intro r2 h
      simp only [Option.some.injEq, Except.ok.injEq, Create.Body.response.injEq] at h
      rw [h]
  | pollAgain hm hpc hn =>
    exact ⟨j1, j2, j3, j4, j5, j6, j7, j8, j9⟩
  | pollExhausted hpc hn =>
    refine ⟨?_, ?_, fun _ => Or.inr rfl, j4, ?_, fun h => j6 h, ?_, ?_, j9⟩
    · intro h
      exact absurd h (not_active_of_pc _ IPc.done rfl (by decide) (by decide) (by decide))
    · intro h2
      exact ⟨(j2 h2).1,
        not_active_of_pc _ IPc.done rfl (by decide) (by decide) (by decide)⟩
    · rintro ⟨-, hrows⟩
      rcases j3 hrows with h | h <;> rw [hpc] at h <;> cases h
    · intro hr
      exact ⟨not_active_of_pc _ IPc.done rfl (by decide) (by decide) (by decide), (j7 hr).2⟩
    · intro r2 h
      simp at h
  | claimWin hm hpc =>
    subst hm
    refine ⟨?_, ?_, ?_, j4, ?_, ?_, ?_, ?_, ?_⟩
    · intro _
      exact ⟨rfl, fun h2 => absurd (j2 h2).1 (by simp)⟩
    · intro h2
      exact absurd (j2 h2).1 (by simp)
    · intro hrows
      rcases j3 hrows with h | h <;> rw [hpc] at h <;> cases h
    · rintro ⟨h, -⟩
      cases h
    · intro h
      rcases (j6 h).1 with ⟨r, hr⟩
      simp at hr
    · rintro ⟨r, hr⟩
      simp at hr
    · intro r2 h
      exact absurd (j8 r2 h) (by simp)
    · intro r2 h
      exact absurd (j9 r2 h) (by simp)
  | claimLose hm hpc =>
    refine ⟨?_, ?_, ?_, j4, ?_, fun h => j6 h, ?_, j8, j9⟩
    · intro h
      exact absurd h
        (not_active_of_pc _ IPc.claimFailedRead rfl (by decide) (by decide) (by decide))
    · intro h2
      exact ⟨(j2 h2).1,
        not_active_of_pc _ IPc.claimFailedRead rfl (by decide) (by decide) (by decide)⟩
    · intro hrows
      rcases j3 hrows with h | h <;> rw [hpc] at h <;> cases h
    · rintro ⟨h, -⟩
      cases h
    · intro hr
      exact ⟨not_active_of_pc _ IPc.claimFailedRead rfl (by decide) (by decide) (by decide),
        (j7 hr).2⟩
  | loseRead bdy hm hpc =>
    subst hm
    refine ⟨?_, ?_, fun _ => Or.inr rfl, j4, ?_, fun h => j6 h, ?_, ?_, j9⟩
    · intro h
      exact absurd h (not_active_of_pc _ IPc.done rfl (by decide) (by decide) (by decide))
    · intro h2
      exact ⟨(j2 h2).1,
        not_active_of_pc _ IPc.done rfl (by decide) (by decide) (by decide)⟩
    · rintro ⟨-, hrows⟩
      rcases j3 hrows with h | h <;> rw [hpc] at h <;> cases h
    · intro hr
      exact ⟨not_active_of_pc _ IPc.done rfl (by decide) (by decide) (by decide), (j7 hr).2⟩
    · intro r2 h
      simp only [Option.some.injEq, Except.ok.injEq] at h
      rw [h]
  | loseReadGone hm hpc =>
    subst hm
    refine ⟨?_, ?_, fun _ => Or.inr rfl, j4, ?_, fun h => j6 h, ?_, ?_, ?_⟩
    · intro h
      exact absurd h (not_active_of_pc _ IPc.done rfl (by decide) (by decide) (by decide))
    · intro h2
      exact ⟨(j2 h2).1,
        not_active_of_pc _ IPc.done rfl (by decide) (by decide) (by decide)⟩
    · rintro ⟨-, hrows⟩
      rcases j3 hrows with h | h <;> rw [hpc] at h <;> cases h
    · rintro ⟨r, hr⟩
      simp at hr
    · intro r2 h
      simp at h
    · intro r2 h
      exact absurd (j9 r2 h) (by simp)
  | workFails e hpc =>
    have hma := j1 (Or.inl hpc)
    refine ⟨fun _ => hma, ?_, ?_, j4, ?_, ?_, ?_, ?_, j9⟩
    · intro h2
      exact absurd h2 hma.2
    · intro hrows
      rcases j3 hrows with h | h <;> rw [hpc] at h <;> cases h
    · rintro ⟨h, -⟩
      cases h
    · intro h
      rcases (j6 h).1 with ⟨r, hr⟩
      rw [hma.1] at hr
      simp at hr
    · rintro ⟨r, hr⟩
      rw [hma.1] at hr
      simp at hr
    · intro r2 h
      simp at h
  | workSucceeds hpc =>
    have hma := j1 (Or.inl hpc)
    refine ⟨fun _ => hma, ?_, fun _ => Or.inl rfl, j4, ?_, ?_, ?_, j8, j9⟩
    · intro h2
      exact absurd h2 hma.2
    · rintro ⟨h, -⟩
      cases h
    · intro h
      rcases (j6 h).1 with ⟨r, hr⟩
      rw [hma.1] at hr
      simp at hr
    · rintro ⟨r, hr⟩
      rw [hma.1] at hr
      simp at hr
  | storeStep r hpc =>
    have hma := j1 (Or.inr (Or.inl hpc))
    have hnb : ¬ b.rowsCreated = true := by
      intro hrows
      rcases j4 hrows with h | h
      · exact hma.2 (Or.inr (Or.inl h))
      · rcases (j6 ⟨h, hrows⟩).1 with ⟨r2, hr⟩
        rw [hma.1] at hr
        simp at hr
    refine ⟨?_, ?_, fun _ => Or.inr rfl, j4, ?_, ?_, ?_, ?_, ?_⟩
    · intro h
      exact absurd h (not_active_of_pc _ IPc.done rfl (by decide) (by decide) (by decide))
    · intro h2
      exact absurd h2 hma.2
    · intro _
      exact ⟨⟨r, rfl⟩, hnb⟩
    · intro h
      exact absurd h.2 hnb
    · intro _
      exact ⟨not_active_of_pc _ IPc.done rfl (by decide) (by decide) (by decide), hma.2⟩
    · intro r2 h
      simp only [Option.some.injEq, Except.ok.injEq, Create.Body.response.injEq] at h
      rw [h]
    · intro r2 h
      have h2 := j9 r2 h
      rw [hma.1] at h2
      simp at h2
  | catchStep hpc =>
    have hma := j1 (Or.inr (Or.inr hpc))
    refine ⟨?_, ?_, fun _ => Or.inr rfl, j4, ?_, ?_, ?_, ?_, ?_⟩
    · intro h
      exact absurd h (not_active_of_pc _ IPc.done rfl (by decide) (by decide) (by decide))
    · intro h2
      exact absurd h2 hma.2
    · rintro ⟨-, hrows⟩
      rcases j3 hrows with h | h <;> rw [hpc] at h <;> cases h
    · intro h
      rcases (j6 h).1 with ⟨r2, hr⟩
      rw [hma.1] at hr
      simp at hr
    · rintro ⟨r2, hr⟩
      simp at hr
    · intro r2 h
      have h2 := j8 r2 h
      rw [hma.1] at h2
      simp at h2
    · intro r2 h
      have h2 := j9 r2 h
      rw [hma.1] at h2
      simp at h2

theorem jinv_step (s s' : IState) (hj : JInv s) (hs : IStep s s') : JInv s' := by
  cases hs with
  | left m' c' h => exact jinv_left s.marker m' s.c1 c' s.c2 hj h
  | right m' c' h =>
    exact jinv_swap m' c' s.c1 (jinv_left s.marker m' s.c2 c' s.c1 (jinv_swap _ _ _ hj) h)

theorem jinv_init : JInv iinit := by
  unfold JInv iinit
  refine ⟨?_, ?_, ?_, ?_, ?_, ?_, ?_, ?_, ?_⟩
  · intro h
    exact absurd h (not_active_of_pc _ IPc.initGet rfl (by decide) (by decide) (by decide))
  · intro h
    exact absurd h (not_active_of_pc _ IPc.initGet rfl (by decide) (by decide) (by decide))
  · intro h
    cases h
  · intro h
    cases h
  · rintro ⟨-, h⟩
    cases h
  · rintro ⟨-, h⟩
    cases h
  · rintro ⟨r, hr⟩
    cases hr
  · intro r h
    cases h
  · intro r h
    cases h

theorem reachable_jinv (s : IState) (h : IReachable iinit s) : JInv s := by
  induction h with
  | refl => exact jinv_init
  | tail hab hbc ih => exact jinv_step _ _ ih hbc

end Cinema.Idem

namespace Cinema.Idem

/-- A sample final body stored by the winning call. -/
def c5resp : Create.CreateResponse :=
  ⟨"Reserva criada com sucesso. Confirme o pagamento em até 30 segundos.", ["r1"], 30000, 30⟩

/-- Final state of the demonstration interleaving: call 1 won the NX
claim, created its rows and stored its body; call 2 found the
processing sentinel, polled its 15-iteration budget out while call 1
was still working, and failed with the Conflict error. -/
def c5end : IState :=
  ⟨some (.response c5resp),
   ⟨.done, 15, true, some (.ok (.response c5resp))⟩,
   ⟨.done, 0, false,
    some (.error (.Conflict "Requisição idempotente em processamento. Tente novamente."))⟩⟩

/-- Draining the poll budget while the marker stays at `processing`. -/
theorem poll_drain (c1 : ICall) (n : Nat) :
    IReachable ⟨some .processing, c1, ⟨.polling, n, false, none⟩⟩
      ⟨some .processing, c1, ⟨.polling, 0, false, none⟩⟩ := by
  induction n with
  | zero => exact Relation.ReflTransGen.refl
  | succ k ih =>
    exact Relation.ReflTransGen.head
      (IStep.right _ _ _ (CallStep.pollAgain _ _ (Or.inl rfl) rfl (Nat.succ_ne_zero k))) ih

theorem c5end_reachable : IReachable iinit c5end := by
  refine Relation.ReflTransGen.head
    (IStep.left _ _ _ (CallStep.initMiss _ _ rfl rfl)) ?_
  refine Relation.ReflTransGen.head
    (IStep.left _ _ _ (CallStep.claimWin _ _ rfl rfl)) ?_
  refine Relation.ReflTransGen.head
    (IStep.right _ _ _ (CallStep.initProcessing _ _ rfl rfl)) ?_
  refine Relation.ReflTransGen.trans
    (poll_drain ⟨.work, 15, false, none⟩ 15) ?_
  refine Relation.ReflTransGen.head
    (IStep.right _ _ _ (CallStep.pollExhausted _ _ rfl rfl)) ?_
  refine Relation.ReflTransGen.head
    (IStep.left _ _ _ (CallStep.workSucceeds _ _ rfl)) ?_
  refine Relation.ReflTransGen.head
    (IStep.left _ _ _ (CallStep.storeStep _ _ c5resp rfl)) ?_
  exact Relation.ReflTransGen.refl

end Cinema.Idem

namespace Cinema

/-- C5 counterexample: two `create` calls with the same idempotency key
inside the TTL do NOT always return byte-identical bodies.  In this
reachable interleaving both calls have completed, yet call 1 returns the
success body while call 2 — which found the `processing` sentinel and
exhausted its 15 × 100 ms poll budget before the winner stored its
response — returns a 409 Conflict error. -/
theorem create_idempotency_counterexample :
    Idem.IReachable Idem.iinit Idem.c5end ∧
    Idem.c5end.c1.pc = Idem.IPc.done ∧ Idem.c5end.c2.pc = Idem.IPc.done ∧
    Idem.c5end.c1.result = some (.ok (.response Idem.c5resp)) ∧
    Idem.c5end.c2.result
      = some (.error (.Conflict "Requisição idempotente em processamento. Tente novamente.")) ∧
    Idem.c5end.c1.result ≠ Idem.c5end.c2.result :=
  ⟨Idem.c5end_reachable, rfl, rfl, rfl, rfl, by intro h; simp [Idem.c5end] at h⟩

/-- C5 (amended): in every reachable state of two same-key `create`
calls, at most one of the two calls has created Reservation rows, and
whenever both calls return ok response bodies those bodies are equal
(each equals the body stored under the idempotency key).  Byte-identical
responses for both calls are not guaranteed: a call can exhaust its poll
budget and fail with a Conflict error instead. -/
theorem create_idempotency (s : Idem.IState) (h : Idem.IReachable Idem.iinit s) :
    ¬ (s.c1.rowsCreated = true ∧ s.c2.rowsCreated = true) ∧
    ∀ r1 r2 : Create.CreateResponse,
      s.c1.result = some (.ok (.response r1)) →
      s.c2.result = some (.ok (.response r2)) → r1 = r2 := by
  have hj := Idem.reachable_jinv s h
  unfold Idem.JInv at hj
  obtain ⟨j1, j2, j3, j4, j5, j6, j7, j8, j9⟩ := hj
  constructor
  · rintro ⟨h1, h2⟩
    rcases j3 h1 with hp1 | hp1
    · have hact1 : Idem.active s.c1 := Or.inr (Or.inl hp1)
      rcases j1 hact1 with ⟨hm, hna2⟩
      rcases j4 h2 with hp2 | hp2
      · exact hna2 (Or.inr (Or.inl hp2))
      · exact (j6 ⟨hp2, h2⟩).2 h1
    · exact (j5 ⟨hp1, h1⟩).2 h2
  · intro r1 r2 h1 h2
    have e1 := j8 r1 h1
    have e2 := j9 r2 h2
    rw [e1] at e2
    simp only [Option.some.injEq, Create.Body.response.injEq] at e2
    exact e2

theorem create_idempotency_witness :
    ¬ (Idem.c5end.c1.rowsCreated = true ∧ Idem.c5end.c2.rowsCreated = true) ∧
    ∀ r1 r2 : Create.CreateResponse,
      Idem.c5end.c1.result = some (.ok (.response r1)) →
      Idem.c5end.c2.result = some (.ok (.response r2)) → r1 = r2 :=
  create_idempotency Idem.c5end Idem.c5end_reachable

end Cinema
